import Mathlib

/-!
Pomerium authorize: the external-authorization check pipeline.

A shallow embedding of `authorize/grpc.go`: the client-certificate extractor
(`getClientCertificateInfo`), the URL translator (`getCheckRequestURL`), the
policy matcher (`getMatchingPolicy`), the session resolver (`loadSession`) and
the orchestrator (`Check`).

Go strings and byte slices are finite byte sequences (`Bytes`).  Functions of the
Go standard library and of packages outside `authorize/grpc.go` are fields of an
interface record (`GoStd`, `Pkg`, `Authorize`), so every theorem holds for whatever those
functions compute; a reference implementation of the standard-library part
(`goStd`) instantiates the interface at concrete inputs.
-/

set_option autoImplicit false

namespace Pomerium

/-! ## Go values -/

/-- A Go `string` or `[]byte`: a finite sequence of bytes, each below 256. -/
abbrev Bytes := List Nat

/-- The bytes of an ASCII string literal. -/
def ascii (s : String) : Bytes := s.data.map Char.toNat

/-- gRPC status codes (`google.golang.org/grpc/codes`). -/
inductive Code
  | OK | Canceled | Unknown | InvalidArgument | DeadlineExceeded | NotFound
  | AlreadyExists | PermissionDenied | ResourceExhausted | FailedPrecondition
  | Aborted | OutOfRange | Unimplemented | Internal | Unavailable | DataLoss
  | Unauthenticated
  deriving DecidableEq, Repr

/-- A non-nil Go `error` value.  `ErrNoSessionFound` and `ErrInvalidSession` are the two
sentinels of `internal/sessions`; `other` is any other leaf error without a gRPC status;
`status` is a gRPC status error (`status.Error(code, msg)`); `wrap` is
`fmt.Errorf("msg: %w", inner)`; `join` is an error that wraps two errors
(`fmt.Errorf("msg: %w: %w", left, right)`, `errors.Join`), so that what `errors.Is` finds
and the gRPC status of an error are independent of each other. -/
inductive GoError
  | ErrNoSessionFound
  | ErrInvalidSession
  | other (msg : String)
  | status (code : Code) (msg : String)
  | wrap (msg : String) (inner : GoError)
  | join (msg : String) (left right : GoError)
  deriving DecidableEq, Repr

/-- Go `errors.Is(err, target)`: walk the tree of wrapped errors of `err` depth-first,
comparing each error with `target`. -/
def GoError.Is : GoError → GoError → Bool
  | .wrap m i, t => (decide (GoError.wrap m i = t)) || i.Is t
  | .join m l r, t => (decide (GoError.join m l r = t)) || l.Is t || r.Is t
  | e, t => decide (e = t)

/-- Go `errors.Is` on a possibly nil error. -/
def errorsIs (err : Option GoError) (target : GoError) : Bool :=
  match err with
  | none => false
  | some e => e.Is target

/-- The gRPC status found in a non-nil error by `errors.As`: the code of the first status
error of the tree of wrapped errors, depth-first. -/
def GoError.grpcStatus : GoError → Option Code
  | .status c _ => some c
  | .wrap _ i => i.grpcStatus
  | .join _ l r =>
    match l.grpcStatus with
    | some c => some c
    | none => r.grpcStatus
  | _ => none

/-- The gRPC code carried by a non-nil error: the code of the status error found in it,
`Unknown` when there is none. -/
def GoError.code (e : GoError) : Code := e.grpcStatus.getD Code.Unknown

/-- gRPC `status.Code(err)`: `OK` for a nil error. -/
def statusCode (err : Option GoError) : Code :=
  match err with
  | none => Code.OK
  | some e => e.code

/-! ## Protobuf `Struct` metadata -/

/-- The kinds of a `structpb.Value`.  The payload of the number, struct and list kinds is
never inspected by the code embedded here. -/
inductive Value
  | nullValue
  | numberValue (n : Int)
  | stringValue (s : Bytes)
  | boolValue (b : Bool)
  | structValue
  | listValue
  deriving DecidableEq, Repr

/-- A `structpb.Struct`: the `Fields` map, as an association list. -/
structure Struct where
  Fields : List (Bytes × Value)
  deriving DecidableEq, Repr

/-- Go map indexing `m.Fields[key]`: the nil `*Value` when the key is missing. -/
def Struct.field (m : Struct) (key : Bytes) : Option Value :=
  (m.Fields.find? (fun kv => decide (kv.1 = key))).map Prod.snd

/-- The getter `(*Value).GetBoolValue`: `false` unless the value is of the bool kind. -/
def GetBoolValue : Option Value → Bool
  | some (.boolValue b) => b
  | _ => false

/-- The getter `(*Value).GetStringValue`: the empty string unless the value is of the
string kind. -/
def GetStringValue : Option Value → Bytes
  | some (.stringValue s) => s
  | _ => []

/-! ## The standard-library interface -/

/-- A `pem.Block` (`Typ` is the Go field `Type`). -/
structure Block where
  Typ : Bytes
  Headers : List (Bytes × Bytes)
  Bytes : Bytes
  deriving DecidableEq, Repr

/-- A `url.Values`: each key with its values. -/
abbrev Values := List (Bytes × List Bytes)

/-- The functions of the Go standard library called by `authorize/grpc.go`, with the two
facts about the empty input that the callers rely on. -/
structure GoStd where
  /-- Go `url.QueryUnescape`. -/
  QueryUnescape : Bytes → Except GoError Bytes
  /-- Go `url.PathUnescape`. -/
  PathUnescape : Bytes → Except GoError Bytes
  /-- Go `url.ParseQuery`: the values parsed, and the first error met. -/
  ParseQuery : Bytes → Values × Option GoError
  /-- Go `url.Values.Encode`. -/
  Encode : Values → Bytes
  /-- Go `pem.Decode`: the first block found (if any) and the rest of the input. -/
  pemDecode : Bytes → Option Block × Bytes
  /-- Go `pem.EncodeToMemory`. -/
  pemEncodeToMemory : Block → Bytes
  /-- The empty string unescapes to itself. -/
  QueryUnescape_nil : QueryUnescape [] = .ok []
  /-- The empty input holds no PEM block. -/
  pemDecode_nil : pemDecode [] = (none, [])

/-! ## `getClientCertificateInfo` -/

/-- The type `evaluator.ClientCertificateInfo`. -/
structure ClientCertificateInfo where
  Presented : Bool
  Leaf : Bytes
  Intermediates : Bytes
  deriving DecidableEq, Repr

/-- The zero value of `ClientCertificateInfo` (`var c evaluator.ClientCertificateInfo`). -/
def ClientCertificateInfo.zero : ClientCertificateInfo :=
  { Presented := false, Leaf := [], Intermediates := [] }

/-- The function `getClientCertificateInfo` of `authorize/grpc.go`.  `metadata` is the
possibly nil `*structpb.Struct`.  The two `log.Ctx(ctx).Error()` calls write a log line
and do not change the result. -/
def getClientCertificateInfo (E : GoStd) (metadata : Option Struct) : ClientCertificateInfo :=
  let c := ClientCertificateInfo.zero
  match metadata with
  | none => c
  | some metadata =>
    let c := { c with Presented := GetBoolValue (metadata.field (ascii "presented")) }
    let escapedChain := GetStringValue (metadata.field (ascii "chain"))
    if escapedChain = [] then
      -- No validated client certificate.
      c
    else
      match E.QueryUnescape escapedChain with
      | .error _ => c
      | .ok chain =>
        -- Split the chain into the leaf and any intermediate certificates.
        match E.pemDecode chain with
        | (none, _) => c
        | (some p, rest) =>
          { c with Leaf := E.pemEncodeToMemory p, Intermediates := rest }

/-! ## Reference implementation of the standard-library interface

A transcription of the library functions behind `GoStd` (`net/url`, `encoding/pem`,
`encoding/base64`), used to run the embedded code on concrete inputs. -/

namespace GoRef

/-- Go `bytes.HasPrefix(l, p)`. -/
def startsWith : Bytes → Bytes → Bool
  | [], _ => true
  | _ :: _, [] => false
  | a :: p, b :: l => decide (a = b) && startsWith p l

/-- Go `bytes.HasSuffix(l, p)`. -/
def endsWith (p l : Bytes) : Bool := startsWith p.reverse l.reverse

/-- Go `bytes.Cut(l, sep)` for a non-empty separator: the parts before and after the
first occurrence of `sep`, or `none` when `sep` does not occur. -/
def cut (sep : Bytes) : Bytes → Option (Bytes × Bytes)
  | [] => none
  | c :: rest =>
    if startsWith sep (c :: rest) then some ([], (c :: rest).drop sep.length)
    else (cut sep rest).map (fun ba => (c :: ba.1, ba.2))

/-- Go `bytes.Index(l, sep)` for a non-empty separator. -/
def index (sep l : Bytes) : Option Nat := (cut sep l).map (fun ba => ba.1.length)

/-- The helper `ishex` of `net/url`. -/
def ishex (c : Nat) : Bool :=
  (decide (48 ≤ c) && decide (c ≤ 57)) || (decide (97 ≤ c) && decide (c ≤ 102)) ||
    (decide (65 ≤ c) && decide (c ≤ 70))

/-- The helper `unhex` of `net/url`. -/
def unhex (c : Nat) : Nat :=
  if 48 ≤ c ∧ c ≤ 57 then c - 48
  else if 97 ≤ c ∧ c ≤ 102 then c - 97 + 10
  else if 65 ≤ c ∧ c ≤ 70 then c - 65 + 10
  else 0

/-- The function `unescape` of `net/url` in the query-component mode (`plus = true`: a
`+` decodes to a space) and in the path-segment mode (`plus = false`).  A `%` that is not
followed by two hexadecimal digits is an `EscapeError`. -/
def unescape (plus : Bool) : Nat → Bytes → Except GoError Bytes
  | 0, _ => .ok []
  | _ + 1, [] => .ok []
  | fuel + 1, c :: rest =>
    if c = 37 then
      match rest with
      | a :: b :: rest2 =>
        if ishex a && ishex b then
          (unescape plus fuel rest2).map (fun r => (unhex a * 16 + unhex b) :: r)
        else .error (.other "invalid URL escape")
      | _ => .error (.other "invalid URL escape")
    else if c = 43 ∧ plus = true then (unescape plus fuel rest).map (fun r => 32 :: r)
    else (unescape plus fuel rest).map (fun r => c :: r)

/-- Go `url.QueryUnescape`. -/
def QueryUnescape (s : Bytes) : Except GoError Bytes := unescape true s.length s

/-- Go `url.PathUnescape`. -/
def PathUnescape (s : Bytes) : Except GoError Bytes := unescape false s.length s

/-- The pieces of `s` between occurrences of the byte `sep`. -/
def splitByte (sep : Nat) : Bytes → List Bytes
  | [] => [[]]
  | c :: rest =>
    if c = sep then [] :: splitByte sep rest
    else
      match splitByte sep rest with
      | [] => [[c]]
      | h :: t => (c :: h) :: t

/-- The map update `m[key] = append(m[key], value)`. -/
def Values.add : Values → Bytes → Bytes → Values
  | [], k, v => [(k, [v])]
  | (k1, vs) :: t, k, v =>
    if k1 = k then (k1, vs ++ [v]) :: t else (k1, vs) :: Values.add t k v

/-- One round of the loop of `parseQuery` in `net/url`, for the piece `key` cut off at the
next `&`. -/
def parseQueryStep (acc : Values × Option GoError) (key : Bytes) : Values × Option GoError :=
  if key.contains 59 then
    (acc.1, some (.other "invalid semicolon separator in query"))
  else if key = [] then acc
  else
    let kv : Bytes × Bytes := (cut [61] key).getD (key, [])
    match QueryUnescape kv.1 with
    | .error e => (acc.1, some (acc.2.getD e))
    | .ok k =>
      match QueryUnescape kv.2 with
      | .error e => (acc.1, some (acc.2.getD e))
      | .ok v => (Values.add acc.1 k v, acc.2)

/-- Go `url.ParseQuery`. -/
def ParseQuery (query : Bytes) : Values × Option GoError :=
  (splitByte 38 query).foldl parseQueryStep ([], none)

/-- Go string comparison `a < b`: lexicographic on bytes. -/
def bytesLt : Bytes → Bytes → Bool
  | [], [] => false
  | [], _ :: _ => true
  | _ :: _, [] => false
  | a :: as, b :: bs => decide (a < b) || (decide (a = b) && bytesLt as bs)

/-- Insertion of an entry into a list of entries sorted by key. -/
def insertByKey {α : Type} (e : Bytes × α) : List (Bytes × α) → List (Bytes × α)
  | [] => [e]
  | h :: t => if bytesLt e.1 h.1 then e :: h :: t else h :: insertByKey e t

/-- The entries sorted by key (`slices.Sorted(maps.Keys(v))`, `sort.Strings`). -/
def sortByKey {α : Type} (m : List (Bytes × α)) : List (Bytes × α) :=
  m.foldr insertByKey []

/-- The digit `"0123456789ABCDEF"[n]`. -/
def upperhex (n : Nat) : Nat := if n < 10 then 48 + n else 55 + n

/-- The predicate `shouldEscape(c, encodeQueryComponent)` of `net/url`: everything but
the ASCII letters and digits and `-`, `_`, `.`, `~`. -/
def shouldEscape (c : Nat) : Bool :=
  !((decide (97 ≤ c) && decide (c ≤ 122)) || (decide (65 ≤ c) && decide (c ≤ 90)) ||
    (decide (48 ≤ c) && decide (c ≤ 57)) ||
    decide (c = 45) || decide (c = 95) || decide (c = 46) || decide (c = 126))

/-- Go `url.QueryEscape`. -/
def QueryEscape : Bytes → Bytes
  | [] => []
  | c :: rest =>
    if shouldEscape c then
      if c = 32 then 43 :: QueryEscape rest
      else 37 :: upperhex (c / 16) :: upperhex (c % 16) :: QueryEscape rest
    else c :: QueryEscape rest

/-- Go `url.Values.Encode`: `key=value` pairs joined by `&`, keys in sorted order. -/
def Encode (v : Values) : Bytes :=
  let pairs : List Bytes :=
    (sortByKey v).flatMap (fun kvs => kvs.2.map (fun val => QueryEscape kvs.1 ++ [61] ++ QueryEscape val))
  [38].intercalate pairs

/-- The value of a digit of the standard base64 alphabet. -/
def b64val (c : Nat) : Option Nat :=
  if 65 ≤ c ∧ c ≤ 90 then some (c - 65)
  else if 97 ≤ c ∧ c ≤ 122 then some (c - 97 + 26)
  else if 48 ≤ c ∧ c ≤ 57 then some (c - 48 + 52)
  else if c = 43 then some 62
  else if c = 47 then some 63
  else none

/-- The digit of the standard base64 alphabet with value `v`. -/
def b64char (v : Nat) : Nat :=
  if v < 26 then 65 + v
  else if v < 52 then 97 + (v - 26)
  else if v < 62 then 48 + (v - 52)
  else if v = 62 then 43
  else 47

/-- Decoding of the 4-digit quanta of padded standard base64 (`=` is byte 61); `none` on
an illegal digit, a short quantum or data after the padding. -/
def decodeQuanta : Nat → Bytes → Option Bytes
  | _, [] => some []
  | 0, _ :: _ => none
  | fuel + 1, a :: b :: c :: d :: rest =>
    match b64val a, b64val b with
    | some x, some y =>
      if c = 61 then
        if d = 61 ∧ rest = [] then some [x * 4 + y / 16] else none
      else
        match b64val c with
        | none => none
        | some z =>
          if d = 61 then
            if rest = [] then some [x * 4 + y / 16, (y % 16) * 16 + z / 4] else none
          else
            match b64val d with
            | none => none
            | some w =>
              (decodeQuanta fuel rest).map
                (fun r => (x * 4 + y / 16) :: ((y % 16) * 16 + z / 4) :: ((z % 4) * 64 + w) :: r)
    | _, _ => none
  | _ + 1, _ => none

/-- Go `base64.StdEncoding.Decode`: line feeds and carriage returns are skipped. -/
def base64Decode (src : Bytes) : Option Bytes :=
  let s := src.filter (fun c => decide (c ≠ 10) && decide (c ≠ 13))
  decodeQuanta s.length s

/-- Go `base64.StdEncoding.EncodeToString`. -/
def base64Encode : Nat → Bytes → Bytes
  | 0, _ => []
  | _ + 1, [] => []
  | _ + 1, [a] => [b64char (a / 4), b64char ((a % 4) * 16), 61, 61]
  | _ + 1, [a, b] => [b64char (a / 4), b64char ((a % 4) * 16 + b / 16), b64char ((b % 16) * 4), 61]
  | fuel + 1, a :: b :: c :: rest =>
    b64char (a / 4) :: b64char ((a % 4) * 16 + b / 16) :: b64char ((b % 16) * 4 + c / 64) ::
      b64char (c % 64) :: base64Encode fuel rest

/-- Go `bytes.TrimRight(l, " \t")`. -/
def trimRightBlank (l : Bytes) : Bytes :=
  (l.reverse.dropWhile (fun c => decide (c = 32) || decide (c = 9))).reverse

/-- ASCII white space, as trimmed by `bytes.TrimSpace`. -/
def isSpace (c : Nat) : Bool :=
  decide (c = 32) || decide (c = 9) || decide (c = 10) || decide (c = 11) || decide (c = 12) ||
    decide (c = 13)

/-- Go `bytes.TrimSpace` on ASCII input. -/
def trimSpace (l : Bytes) : Bytes :=
  ((l.dropWhile isSpace).reverse.dropWhile isSpace).reverse

/-- The helper `getLine` of `encoding/pem`: the first line without its line ending and
trailing blanks, and what follows the line. -/
def getLine (data : Bytes) : Bytes × Bytes :=
  match index [10] data with
  | none => (trimRightBlank data, [])
  | some i =>
    let i1 := if 0 < i ∧ data.get? (i - 1) = some 13 then i - 1 else i
    (trimRightBlank (data.take i1), data.drop (i + 1))

/-- The helper `removeSpacesAndTabs` of `encoding/pem`. -/
def removeSpacesAndTabs (data : Bytes) : Bytes :=
  data.filter (fun c => !(decide (c = 32) || decide (c = 9)))

/-- The map update `p.Headers[key] = val`. -/
def setHeader : List (Bytes × Bytes) → Bytes → Bytes → List (Bytes × Bytes)
  | [], k, v => [(k, v)]
  | (k1, v1) :: t, k, v => if k1 = k then (k1, v) :: t else (k1, v1) :: setHeader t k v

/-- The header loop of `pem.Decode`: reads `key: value` lines; `none` when the input ends
inside the headers, otherwise the headers and the input from the first line without a
colon. -/
def readHeaders : Nat → Bytes → List (Bytes × Bytes) → Option (List (Bytes × Bytes) × Bytes)
  | 0, _, _ => none
  | fuel + 1, rest, hs =>
    if rest = [] then none
    else
      let ln := getLine rest
      match cut [58] ln.1 with
      | none => some (hs, rest)
      | some kv => readHeaders fuel ln.2 (setHeader hs (trimSpace kv.1) (trimSpace kv.2))

/-- The bytes of `"\n-----BEGIN "`. -/
def pemStart : Bytes := 10 :: ascii "-----BEGIN "

/-- The bytes of `"\n-----END "`. -/
def pemEnd : Bytes := 10 :: ascii "-----END "

/-- The bytes of `"-----"`. -/
def pemEndOfLine : Bytes := ascii "-----"

/-- The main loop of `pem.Decode`; `data` is the whole input, returned untouched when no
block is found, and `rest` the part still to be searched. -/
def decodeLoop (data : Bytes) : Nat → Bytes → Option Block × Bytes
  | 0, _ => (none, data)
  | fuel + 1, rest =>
    let afterStart : Option Bytes :=
      if startsWith pemStart.tail rest then some (rest.drop (pemStart.length - 1))
      else (cut pemStart rest).map Prod.snd
    match afterStart with
    | none => (none, data)
    | some rest =>
      let tl := getLine rest
      let rest := tl.2
      if !endsWith pemEndOfLine tl.1 then decodeLoop data fuel rest
      else
        let typeLine := tl.1.take (tl.1.length - pemEndOfLine.length)
        match readHeaders (rest.length + 1) rest [] with
        | none => (none, data)
        | some (headers, rest) =>
          -- If there were no headers, the END line might occur immediately.
          let ends : Option (Nat × Nat) :=
            if headers = [] ∧ startsWith pemEnd.tail rest = true then some (0, pemEnd.length - 1)
            else (index pemEnd rest).map (fun i => (i, i + pemEnd.length))
          match ends with
          | none => decodeLoop data fuel rest
          | some (endIndex, endTrailerIndex) =>
            let endTrailer := rest.drop endTrailerIndex
            let endTrailerLen := typeLine.length + pemEndOfLine.length
            if endTrailer.length < endTrailerLen then decodeLoop data fuel rest
            else
              let restOfEndLine := endTrailer.drop endTrailerLen
              let endTrailer := endTrailer.take endTrailerLen
              if !startsWith typeLine endTrailer || !endsWith pemEndOfLine endTrailer then
                decodeLoop data fuel rest
              else if (getLine restOfEndLine).1 ≠ [] then decodeLoop data fuel rest
              else
                match base64Decode (removeSpacesAndTabs (rest.take endIndex)) with
                | none => decodeLoop data fuel rest
                | some bytes =>
                  (some { Typ := typeLine, Headers := headers, Bytes := bytes },
                    (getLine (rest.drop (endIndex + pemEnd.length - 1))).2)

/-- Go `pem.Decode`, as in the releases of `encoding/pem` that scan forward from the first
BEGIN line.  Later releases look for the END line first and find no block in some
malformed inputs where this one does (a BEGIN line inside a header value); the inputs
decoded below are made of well-formed blocks. -/
def pemDecode (data : Bytes) : Option Block × Bytes := decodeLoop data (data.length + 1) data

/-- The line breaker of `encoding/pem`: lines of 64 characters, each ended by a line
feed. -/
def breakLines : Nat → Bytes → Bytes
  | 0, _ => []
  | fuel + 1, l => if l = [] then [] else l.take 64 ++ 10 :: breakLines fuel (l.drop 64)

/-- A header line `key: value\n`. -/
def headerLine (kv : Bytes × Bytes) : Bytes := kv.1 ++ ascii ": " ++ kv.2 ++ [10]

/-- Go `pem.EncodeToMemory`: nil (empty) when a header key contains a colon; the
`Proc-Type` header first, the other headers sorted by key. -/
def pemEncodeToMemory (b : Block) : Bytes :=
  if b.Headers.any (fun kv => kv.1.contains 58) then []
  else
    let procType := b.Headers.filter (fun kv => decide (kv.1 = ascii "Proc-Type"))
    let others := sortByKey (b.Headers.filter (fun kv => !decide (kv.1 = ascii "Proc-Type")))
    let headers : Bytes :=
      if b.Headers = [] then [] else (procType ++ others).flatMap headerLine ++ [10]
    let body := base64Encode (b.Bytes.length + 1) b.Bytes
    pemStart.tail ++ b.Typ ++ ascii "-----" ++ [10] ++ headers ++
      breakLines (body.length + 1) body ++ pemEnd.tail ++ b.Typ ++ ascii "-----" ++ [10]

end GoRef

/-- The reference implementation, as an instance of the interface. -/
def goStd : GoStd where
  QueryUnescape := GoRef.QueryUnescape
  PathUnescape := GoRef.PathUnescape
  ParseQuery := GoRef.ParseQuery
  Encode := GoRef.Encode
  pemDecode := GoRef.pemDecode
  pemEncodeToMemory := GoRef.pemEncodeToMemory
  QueryUnescape_nil := rfl
  pemDecode_nil := rfl

/-! ## The wire request and the translated request -/

/-- The functions of other packages of the repository called by `authorize/grpc.go`. -/
structure Pkg where
  /-- The function `urlutil.GetDomainsForURL(u, includeDefaultPort)`, from the scheme and
  host of `u`. -/
  GetDomainsForURL : Bytes → Bytes → Bool → List Bytes
  /-- The function `httputil.CanonicalHeaderKey`. -/
  CanonicalHeaderKey : Bytes → Bytes
  /-- The function `envoyconfig.ExtAuthzContextExtensionsIsInternal`. -/
  ExtAuthzContextExtensionsIsInternal : List (Bytes × Bytes) → Bool
  /-- The function `envoyconfig.ExtAuthzContextExtensionsRouteID`. -/
  ExtAuthzContextExtensionsRouteID : List (Bytes × Bytes) → Nat
  /-- The list of domains of a URL is never empty, so indexing it at 0 is safe. -/
  GetDomainsForURL_ne : ∀ scheme host b, GetDomainsForURL scheme host b ≠ []

/-- The fields of an `envoy_service_auth_v3.CheckRequest` read by `authorize/grpc.go`.
The generated getters return the zero value on an absent sub-message, so an absent
sub-message is represented by its zero value; only the client-certificate metadata is
tested for nil, through the `FilterMetadata` map. -/
structure CheckRequest where
  Method : Bytes
  Scheme : Bytes
  Host : Bytes
  Path : Bytes
  Headers : List (Bytes × Bytes)
  Body : Bytes
  SourceAddress : Bytes
  ContextExtensions : List (Bytes × Bytes)
  FilterMetadata : List (Bytes × Struct)
  deriving DecidableEq, Repr

/-- The fields of a `url.URL` set by `getCheckRequestURL`. -/
structure URL where
  Scheme : Bytes
  Host : Bytes
  Path : Bytes
  RawPath : Bytes
  RawQuery : Bytes
  deriving DecidableEq, Repr

/-- Go `strings.Index(s, string(c))` for a single byte `c`; `none` stands for `-1`. -/
def indexByte (c : Nat) : Bytes → Option Nat
  | [] => none
  | x :: xs => if x = c then some 0 else (indexByte c xs).map (fun i => i + 1)

/-- The function `getCheckRequestURL` of `authorize/grpc.go` (byte 63 is `?`). -/
def getCheckRequestURL (E : GoStd) (K : Pkg) (req : CheckRequest) : URL :=
  let u : URL := { Scheme := req.Scheme, Host := req.Host, Path := [], RawPath := [], RawQuery := [] }
  let u := { u with
    Host := (K.GetDomainsForURL u.Scheme u.Host false).head (K.GetDomainsForURL_ne u.Scheme u.Host false) }
  -- envoy sends the query string as part of the path
  let path := req.Path
  let u :=
    match indexByte 63 path with
    | some idx =>
      let u := { u with RawPath := path.take idx, RawQuery := path.drop (idx + 1) }
      { u with RawQuery := E.Encode (E.ParseQuery u.RawQuery).1 }
    | none => { u with RawPath := path }
  { u with Path := match E.PathUnescape u.RawPath with
                   | .ok decoded => decoded
                   | .error _ => [] }

/-- The function `getCheckRequestHeaders` of `authorize/grpc.go`: the header map with
canonical keys. -/
def getCheckRequestHeaders (K : Pkg) (req : CheckRequest) : List (Bytes × Bytes) :=
  req.Headers.map (fun kv => (K.CanonicalHeaderKey kv.1, kv.2))

/-- The fields of the `http.Request` built by `getHTTPRequestFromCheckRequest`. -/
structure HTTPRequest where
  Method : Bytes
  URL : URL
  Header : List (Bytes × Bytes)
  Body : Bytes
  Host : Bytes
  RequestURI : Bytes
  deriving DecidableEq, Repr

/-- The function `getHTTPRequestFromCheckRequest` of `authorize/grpc.go`. -/
def getHTTPRequestFromCheckRequest (E : GoStd) (K : Pkg) (req : CheckRequest) : HTTPRequest :=
  { Method := req.Method
    URL := getCheckRequestURL E K req
    Header := getCheckRequestHeaders K req
    Body := req.Body
    Host := req.Host
    RequestURI := req.Path }

/-- The fields of a `config.Policy` read by `authorize/grpc.go`, with the source and
destinations that tell policies apart. -/
structure Policy where
  From : Bytes
  To : List Bytes
  ShowErrorDetails : Bool
  deriving DecidableEq, Repr

/-- The type `evaluator.RequestHTTP`, as the record of the arguments of
`evaluator.NewRequestHTTP`. -/
structure RequestHTTP where
  Method : Bytes
  URL : URL
  Headers : List (Bytes × Bytes)
  ClientCertificate : ClientCertificateInfo
  IP : Bytes
  deriving DecidableEq, Repr

/-- The type `evaluator.RequestSession`. -/
structure RequestSession where
  ID : Bytes
  deriving DecidableEq, Repr

/-- The type `evaluator.Request`. -/
structure Request where
  IsInternal : Bool
  Policy : Option Policy
  HTTP : RequestHTTP
  Session : RequestSession
  deriving DecidableEq, Repr

/-- The interface `sessionOrServiceAccount`: a session or a service account, each with
an id and a user id. -/
inductive sessionOrServiceAccount
  | session (id userId : Bytes)
  | serviceAccount (id userId : Bytes)
  deriving DecidableEq, Repr

/-- The method `GetId`. -/
def sessionOrServiceAccount.GetId : sessionOrServiceAccount → Bytes
  | .session id _ => id
  | .serviceAccount id _ => id

/-- The method `GetUserId`. -/
def sessionOrServiceAccount.GetUserId : sessionOrServiceAccount → Bytes
  | .session _ userId => userId
  | .serviceAccount _ userId => userId

/-- The fields of a `sessions.State` read by `loadSession`. -/
structure SessionState where
  ID : Bytes
  DatabrokerRecordVersion : Nat
  deriving DecidableEq, Repr

/-- A `user.User` profile record. -/
structure User where
  Id : Bytes
  deriving DecidableEq, Repr

/-- The fields of an `evaluator.Result` that matter to the orchestrator. -/
structure Result where
  Allow : Bool
  Deny : Bool
  Traces : List String
  deriving DecidableEq, Repr

/-- The check response of the wire protocol: an OK outcome with headers to add, or a
denied outcome with an HTTP status code, a status text and headers. -/
inductive CheckResponse
  | ok (headers : List (Bytes × Bytes))
  | denied (status : Int) (text : String) (headers : List (Bytes × Bytes))
  deriving DecidableEq, Repr

/-- The receiver `a *Authorize` of one check: the configuration snapshot and the
collaborators reached through it.  Each collaborator is a function of the arguments the
code passes to it. -/
structure Authorize where
  /-- The policies of `a.currentConfig.Load().Options.GetAllPolicies()`, in iteration
  order. -/
  policies : List Policy
  /-- The method `(*config.Policy).RouteID`: the identifier and the error. -/
  RouteID : Policy → Nat × Option GoError
  /-- The call `NewIncomingIDPTokenSessionCreator(...).CreateSession(ctx, cfg, policy, hreq)`. -/
  CreateSession : Option Policy → HTTPRequest → Except GoError sessionOrServiceAccount
  /-- The call `sessionStore.LoadSessionStateAndCheckIDP(hreq)`. -/
  LoadSessionStateAndCheckIDP : HTTPRequest → Option SessionState × Option GoError
  /-- The method `getDataBrokerSessionOrServiceAccount(ctx, id, version)`. -/
  getDataBrokerSessionOrServiceAccount : Bytes → Nat → Except GoError sessionOrServiceAccount
  /-- The method `getDataBrokerUser(ctx, userID)`. -/
  getDataBrokerUser : Bytes → Except GoError User
  /-- The call `state.evaluator.Evaluate(ctx, req)`. -/
  Evaluate : Request → Except GoError Result
  /-- The method `handleResult(ctx, in, req, res)`; the first argument is the list of
  evaluation traces attached to `ctx`, if any. -/
  handleResult : Option (List String) → CheckRequest → Request → Result →
    Option CheckResponse × Option GoError

/-! ## `getMatchingPolicy` and `getEvaluatorRequestFromCheckRequest` -/

/-- The loop of `getMatchingPolicy` over the policies still to be visited. -/
def getMatchingPolicy.loop (a : Authorize) (routeID : Nat) : List Policy → Option Policy
  | [] => none
  | p :: rest =>
    let id := (a.RouteID p).1
    if id = routeID then some p else getMatchingPolicy.loop a routeID rest

/-- The method `getMatchingPolicy` of `authorize/grpc.go`; `none` is the nil policy. -/
def getMatchingPolicy (a : Authorize) (routeID : Nat) : Option Policy :=
  getMatchingPolicy.loop a routeID a.policies

/-- Go map indexing `m[key]` on the filter metadata. -/
def filterMetadata (req : CheckRequest) (key : Bytes) : Option Struct :=
  (req.FilterMetadata.find? (fun kv => decide (kv.1 = key))).map Prod.snd

/-- The method `getEvaluatorRequestFromCheckRequest` of `authorize/grpc.go`; the error it
returns is always nil. -/
def getEvaluatorRequestFromCheckRequest (E : GoStd) (K : Pkg) (a : Authorize) (req : CheckRequest) :
    Request × Option GoError :=
  let requestURL := getCheckRequestURL E K req
  let clientCertMetadata := filterMetadata req (ascii "com.pomerium.client-certificate-info")
  let r : Request :=
    { IsInternal := K.ExtAuthzContextExtensionsIsInternal req.ContextExtensions
      Policy := none
      HTTP :=
        { Method := req.Method
          URL := requestURL
          Headers := getCheckRequestHeaders K req
          ClientCertificate := getClientCertificateInfo E clientCertMetadata
          IP := req.SourceAddress }
      Session := { ID := [] } }
  let r := { r with
    Policy := getMatchingPolicy a (K.ExtAuthzContextExtensionsRouteID req.ContextExtensions) }
  (r, none)

/-! ## `loadSession` and `Check` -/

/-- Go `http.StatusForbidden`. -/
def StatusForbidden : Nat := 403

/-- Go `http.StatusText`: the standard text of an HTTP status code, empty when the code
is unknown. -/
def StatusText (code : Nat) : String :=
  match code with
  | 100 => "Continue"
  | 101 => "Switching Protocols"
  | 102 => "Processing"
  | 103 => "Early Hints"
  | 200 => "OK"
  | 201 => "Created"
  | 202 => "Accepted"
  | 203 => "Non-Authoritative Information"
  | 204 => "No Content"
  | 205 => "Reset Content"
  | 206 => "Partial Content"
  | 207 => "Multi-Status"
  | 208 => "Already Reported"
  | 226 => "IM Used"
  | 300 => "Multiple Choices"
  | 301 => "Moved Permanently"
  | 302 => "Found"
  | 303 => "See Other"
  | 304 => "Not Modified"
  | 305 => "Use Proxy"
  | 307 => "Temporary Redirect"
  | 308 => "Permanent Redirect"
  | 400 => "Bad Request"
  | 401 => "Unauthorized"
  | 402 => "Payment Required"
  | 403 => "Forbidden"
  | 404 => "Not Found"
  | 405 => "Method Not Allowed"
  | 406 => "Not Acceptable"
  | 407 => "Proxy Authentication Required"
  | 408 => "Request Timeout"
  | 409 => "Conflict"
  | 410 => "Gone"
  | 411 => "Length Required"
  | 412 => "Precondition Failed"
  | 413 => "Request Entity Too Large"
  | 414 => "Request URI Too Long"
  | 415 => "Unsupported Media Type"
  | 416 => "Requested Range Not Satisfiable"
  | 417 => "Expectation Failed"
  | 418 => "I\x27m a teapot"
  | 421 => "Misdirected Request"
  | 422 => "Unprocessable Entity"
  | 423 => "Locked"
  | 424 => "Failed Dependency"
  | 425 => "Too Early"
  | 426 => "Upgrade Required"
  | 428 => "Precondition Required"
  | 429 => "Too Many Requests"
  | 431 => "Request Header Fields Too Large"
  | 451 => "Unavailable For Legal Reasons"
  | 500 => "Internal Server Error"
  | 501 => "Not Implemented"
  | 502 => "Bad Gateway"
  | 503 => "Service Unavailable"
  | 504 => "Gateway Timeout"
  | 505 => "HTTP Version Not Supported"
  | 506 => "Variant Also Negotiates"
  | 507 => "Insufficient Storage"
  | 508 => "Loop Detected"
  | 510 => "Not Extended"
  | 511 => "Network Authentication Required"
  | _ => ""

/-- What one check does besides returning: the log lines it writes, the call of the
evaluation engine, and the audit record of `logAuthorizeCheck`. -/
inductive Event
  | log (level : String) (msg : String)
  | Evaluate (req : Request)
  | logAuthorizeCheck (res : Result) (s : Option sessionOrServiceAccount) (u : Option User)
  deriving DecidableEq, Repr

/-- Whether an event is a call of the evaluation engine. -/
def Event.isEvaluate : Event → Bool
  | .Evaluate _ => true
  | _ => false

/-- Whether an event is an audit record. -/
def Event.isAudit : Event → Bool
  | .logAuthorizeCheck _ _ _ => true
  | _ => false

/-- A Go result pair `(value, err)`: the value is nil on an error, the error nil on
success. -/
def toPair {α : Type} : Except GoError α → Option α × Option GoError
  | .ok v => (some v, none)
  | .error e => (none, some e)

/-- Modelled from the spec: the method `deniedResponse(ctx, in, code, reason, headers)` of
`authorize/check_response.go`, which is not part of the sources at hand.  It builds the
denied outcome of the check protocol (section 6: an HTTP status code, a status text and
optional additional headers) and returns no error. -/
def deniedResponse (_in : CheckRequest) (code : Int) (reason : String)
    (headers : Option (List (Bytes × Bytes))) : Option CheckResponse × Option GoError :=
  (some (CheckResponse.denied code reason (headers.getD [])), none)

/-- The method `loadSession` of `authorize/grpc.go`: the pair `(s, err)` it returns and
the log lines it writes. -/
def loadSession (a : Authorize) (hreq : HTTPRequest) (req : Request) :
    (Option sessionOrServiceAccount × Option GoError) × List Event :=
  -- attempt to create a session from an incoming idp token
  let r := toPair (a.CreateSession req.Policy hreq)
  let s := r.1
  let err := r.2
  match err with
  | none => ((s, none), [])
  | some e =>
    if !errorsIs err GoError.ErrNoSessionFound then
      ((none, some e), [Event.log "info" "error creating session for incoming idp token"])
    else
      let sessionState := (a.LoadSessionStateAndCheckIDP hreq).1
      match sessionState with
      | none => ((none, none), [])
      | some sessionState =>
        let r := toPair (a.getDataBrokerSessionOrServiceAccount sessionState.ID
          sessionState.DatabrokerRecordVersion)
        let s := r.1
        let err := r.2
        if statusCode err = Code.Unavailable then
          ((none, err),
            [Event.log "debug" "temporary error checking authorization: data broker unavailable"])
        else if err ≠ none then
          ((none, none),
            [Event.log "info"
              "clearing session due to missing or invalid session or service account"])
        else ((s, none), [])

/-- The method `Check` of `authorize/grpc.go`: the pair `(response, err)` it returns and
the events of the check, in order.  The tracing span, the caching querier and the request
id only travel in `ctx` and are left out. -/
def Check (E : GoStd) (K : Pkg) (a : Authorize) (in_ : CheckRequest) :
    (Option CheckResponse × Option GoError) × List Event :=
  -- convert the incoming envoy-style http request into a go-style http request
  let hreq := getHTTPRequestFromCheckRequest E K in_
  let r := getEvaluatorRequestFromCheckRequest E K a in_
  let req := r.1
  match r.2 with
  | some err => ((none, some err), [Event.log "error" "error building evaluator request"])
  | none =>
    -- load the session
    let ls := loadSession a hreq req
    let s := ls.1.1
    let err := ls.1.2
    let ev := ls.2
    if errorsIs err GoError.ErrInvalidSession then
      -- ENG-2172: if this is an invalid session, don't evaluate policy, return forbidden
      (deniedResponse in_ StatusForbidden (StatusText StatusForbidden) none, ev)
    else
      match err with
      | some e => ((none, some (GoError.wrap "error loading session" e)), ev)
      | none =>
        -- if there's a session or service account, load the user
        let req :=
          match s with
          | some s => { req with Session := { req.Session with ID := s.GetId } }
          | none => req
        let u : Option User :=
          match s with
          | some s => (toPair (a.getDataBrokerUser s.GetUserId)).1
          | none => none
        match a.Evaluate req with
        | .error e =>
          ((none, some e), ev ++ [Event.Evaluate req, Event.log "error" "error during OPA evaluation"])
        | .ok res =>
          -- if show error details is enabled, attach the policy evaluation traces
          let traces : Option (List String) :=
            match req.Policy with
            | some p => if p.ShowErrorDetails then some res.Traces else none
            | none => none
          let hr := a.handleResult traces in_ req res
          let ev := ev ++ [Event.Evaluate req] ++
            (if hr.2 ≠ none then [Event.log "error" "grpc check ext_authz_error"] else [])
          ((hr.1, hr.2), ev ++ [Event.logAuthorizeCheck res s u])

/-! ## Concrete inputs -/

/-- A leaf certificate block in PEM form (three payload bytes). -/
def leafPEM : Bytes := ascii "-----BEGIN CERTIFICATE-----\nAQID\n-----END CERTIFICATE-----\n"

/-- An intermediate certificate block in PEM form. -/
def intermediatePEM : Bytes := ascii "-----BEGIN CERTIFICATE-----\nBAUG\n-----END CERTIFICATE-----\n"

/-- The block decoded from `leafPEM`. -/
def leafBlock : Block := { Typ := ascii "CERTIFICATE", Headers := [], Bytes := [1, 2, 3] }

/-- Client-certificate metadata as the proxy sends it: the flag and the URL-escaped chain
of a leaf and one intermediate. -/
def certMetadata : Struct :=
  { Fields :=
      [(ascii "presented", Value.boolValue true),
       (ascii "chain", Value.stringValue (GoRef.QueryEscape (leafPEM ++ intermediatePEM)))] }

/-- Client-certificate metadata with a presented flag and a chain that is not valid
URL-escaping. -/
def badEscapeMetadata : Struct :=
  { Fields := [(ascii "presented", Value.boolValue true), (ascii "chain", Value.stringValue (ascii "%zz"))] }

/-- Client-certificate metadata with a presented flag and a chain without a PEM block. -/
def noPEMMetadata : Struct :=
  { Fields :=
      [(ascii "presented", Value.boolValue true),
       (ascii "chain", Value.stringValue (ascii "not+a+certificate"))] }

/-- Client-certificate metadata with a presented flag and no chain. -/
def noChainMetadata : Struct :=
  { Fields := [(ascii "presented", Value.boolValue true)] }

/-- The value of a decimal numeral, 0 when a byte is not a digit. -/
def parseDecimal (s : Bytes) : Nat :=
  if s.all (fun c => decide (48 ≤ c) && decide (c ≤ 57)) then s.foldl (fun n c => 10 * n + (c - 48)) 0
  else 0

/-- A simple instance of the package functions: the host as the only domain, header keys
unchanged, the context extensions `internal` and `route_id`. -/
def demoPkg : Pkg where
  GetDomainsForURL := fun _ host _ => [host]
  CanonicalHeaderKey := fun k => k
  ExtAuthzContextExtensionsIsInternal := fun ext =>
    decide ((ext.find? (fun kv => decide (kv.1 = ascii "internal"))).map Prod.snd = some (ascii "true"))
  ExtAuthzContextExtensionsRouteID := fun ext =>
    parseDecimal (((ext.find? (fun kv => decide (kv.1 = ascii "route_id"))).map Prod.snd).getD [])
  GetDomainsForURL_ne := fun _ _ _ => List.cons_ne_nil _ _

/-- A check request for `GET https://example.com/a?b=2&a=1` on route 7. -/
def demoRequest : CheckRequest :=
  { Method := ascii "GET"
    Scheme := ascii "https"
    Host := ascii "example.com"
    Path := ascii "/a?b=2&a=1"
    Headers := [(ascii "Accept", ascii "*/*")]
    Body := []
    SourceAddress := ascii "127.0.0.1"
    ContextExtensions := [(ascii "internal", ascii "false"), (ascii "route_id", ascii "7")]
    FilterMetadata := [] }

/-- A receiver whose collaborators answer as given: `create` is the outcome of the token
exchange, `state` the session state of the session store, `record` the outcome of the
record-store lookup for session id `s1` at version 3 (any other lookup reports not found),
`eval` the outcome of the evaluation engine.  The response is OK on allow and a 401 denial
otherwise. -/
def scenario (create : Except GoError sessionOrServiceAccount) (state : Option SessionState)
    (record : Except GoError sessionOrServiceAccount) (eval : Except GoError Result) : Authorize where
  policies := []
  RouteID := fun p => (p.From.length, none)
  CreateSession := fun _ _ => create
  LoadSessionStateAndCheckIDP := fun _ => (state, none)
  getDataBrokerSessionOrServiceAccount := fun id version =>
    if id = ascii "s1" ∧ version = 3 then record
    else .error (GoError.status Code.NotFound "record not found")
  getDataBrokerUser := fun _ => .error (GoError.status Code.NotFound "record not found")
  Evaluate := fun _ => eval
  handleResult := fun _ _ _ res =>
    if res.Allow = true ∧ res.Deny = false then (some (CheckResponse.ok []), none)
    else (some (CheckResponse.denied 401 "Unauthorized" []), none)

/-- The session state with id `s1` and record version 3. -/
def stateS1 : SessionState := { ID := ascii "s1", DatabrokerRecordVersion := 3 }

/-- An allowing evaluation result. -/
def allowResult : Result := { Allow := true, Deny := false, Traces := [] }

/-- The token exchange finds no token. -/
def noToken : Except GoError sessionOrServiceAccount := .error GoError.ErrNoSessionFound

/-- The token exchange rejects the token: `fmt.Errorf("%w: invalid access token",
sessions.ErrInvalidSession)`. -/
def invalidToken : Except GoError sessionOrServiceAccount :=
  .error (GoError.wrap "invalid access token" GoError.ErrInvalidSession)

/-! ## `pkg/cryptutil`: certificate selection -/

/-- The fields of an `x509.Certificate` read by `matchesServerName`: `Subject.CommonName`
and `DNSNames`. -/
structure X509Certificate where
  CommonName : Bytes
  DNSNames : List Bytes
  deriving DecidableEq, Repr

/-- A `tls.Certificate`: the chain of DER-encoded certificates, leaf first. -/
structure TLSCertificate where
  Certificate : List Bytes
  deriving DecidableEq, Repr

/-- The functions called by `pkg/cryptutil/tls.go` that live elsewhere. -/
structure CryptDeps where
  /-- Go `x509.ParseCertificate`. -/
  ParseCertificate : Bytes → Except GoError X509Certificate
  /-- The function `certmagic.MatchWildcard(subject, wildcard)`. -/
  MatchWildcard : Bytes → Bytes → Bool
  /-- The function `GenerateSelfSignedCertificate(serverName)` of `pkg/cryptutil`. -/
  GenerateSelfSignedCertificate : Bytes → Option TLSCertificate × Option GoError

/-- The loop of `matchesServerName` over the DNS names of the certificate. -/
def matchesServerName.loop (X : CryptDeps) (serverName : Bytes) : List Bytes → Bool
  | [] => false
  | san :: rest =>
    if X.MatchWildcard serverName san then true else matchesServerName.loop X serverName rest

/-- The function `matchesServerName` of `pkg/cryptutil/tls.go`; `cert` is the possibly nil
`*tls.Certificate`. -/
def matchesServerName (X : CryptDeps) (cert : Option TLSCertificate) (serverName : Bytes) : Bool :=
  match cert with
  | none => false
  | some cert =>
    match cert.Certificate with
    | [] => false
    | der :: _ =>
      match X.ParseCertificate der with
      | .error _ => false
      | .ok xcert =>
        if X.MatchWildcard serverName xcert.CommonName then true
        else matchesServerName.loop X serverName xcert.DNSNames

/-- The `*tls.Certificate` returned by `GetCertificateForServerName`: the address
`&certificates[i]` of an element of the list, or the pointer returned by
`GenerateSelfSignedCertificate`. -/
inductive CertPointer
  | element (i : Nat)
  | generated (cert : TLSCertificate)
  deriving DecidableEq, Repr

/-- The loop `for i := range certificates` of `GetCertificateForServerName`, from index
`i` on: the index of the first certificate that matches. -/
def GetCertificateForServerName.loop (X : CryptDeps) (serverName : Bytes) :
    List TLSCertificate → Nat → Option Nat
  | [], _ => none
  | c :: rest, i =>
    if matchesServerName X (some c) serverName then some i
    else GetCertificateForServerName.loop X serverName rest (i + 1)

/-- The function `GetCertificateForServerName` of `pkg/cryptutil/tls.go`.  The warning of
`log.WarnNoTLSCertificate` is a log line and is left out. -/
def GetCertificateForServerName (X : CryptDeps) (certificates : List TLSCertificate)
    (serverName : Bytes) : Option CertPointer × Option GoError :=
  -- first try a direct name match
  match GetCertificateForServerName.loop X serverName certificates 0 with
  | some i => (some (CertPointer.element i), none)
  | none =>
    -- finally fall back to a generated, self-signed certificate
    let r := X.GenerateSelfSignedCertificate serverName
    (r.1.map CertPointer.generated, r.2)

/-- Go `strings.ToLower` on ASCII input. -/
def GoRef.toLower (s : Bytes) : Bytes :=
  s.map (fun c => if 65 ≤ c ∧ c ≤ 90 then c + 32 else c)

/-- The candidates tried by `certmagic.MatchWildcard`: the loop replaces the non-empty
labels of the subject by `*` (byte 42) one after the other, keeping the earlier
replacements, and tries the subject after each replacement. -/
def GoRef.wildcardCandidates : List Bytes → List Bytes → List (List Bytes)
  | _, [] => []
  | before, l :: after =>
    if l = [] then GoRef.wildcardCandidates (before ++ [l]) after
    else (before ++ [42] :: after) :: GoRef.wildcardCandidates (before ++ [[42]]) after

/-- The function `certmagic.MatchWildcard(subject, wildcard)`: equality ignoring case, or
equality of the wildcard with the subject in which the leading non-empty labels are
replaced by `*`. -/
def GoRef.MatchWildcard (subject wildcard : Bytes) : Bool :=
  let subject := GoRef.toLower subject
  let wildcard := GoRef.toLower wildcard
  if subject = wildcard then true
  else if !wildcard.contains 42 then false
  else
    (GoRef.wildcardCandidates [] (GoRef.splitByte 46 subject)).any
      (fun labels => decide ([46].intercalate labels = wildcard))

/-- A simple instance of the functions behind `CryptDeps`: the bytes of a certificate are
its names separated by commas, the common name first, and empty bytes do not parse; the
generated certificate holds the server name. -/
def demoCrypt : CryptDeps where
  ParseCertificate := fun der =>
    match GoRef.splitByte 44 der with
    | [] => .error (GoError.other "x509: malformed certificate")
    | cn :: sans =>
      if der = [] then .error (GoError.other "x509: malformed certificate")
      else .ok { CommonName := cn, DNSNames := sans }
  MatchWildcard := GoRef.MatchWildcard
  GenerateSelfSignedCertificate := fun serverName =>
    (some { Certificate := [ascii "self-signed," ++ serverName] }, none)

/-- A certificate for `a.example.com` and `*.internal.example.com`. -/
def certA : TLSCertificate := { Certificate := [ascii "a.example.com,*.internal.example.com"] }

/-- A certificate for `b.example.com`. -/
def certB : TLSCertificate := { Certificate := [ascii "b.example.com"] }

/-! ## `pkg/pebbleutil`: `PrefixToUpperBound` -/

/-- The two byte slices of a call of `PrefixToUpperBound`: the bytes of the argument
(`prefix` in the source) and the bytes of the local `upperBound`. -/
structure Slices where
  pfx : Bytes
  upperBound : Bytes
  deriving DecidableEq, Repr

/-- Go `copy(dst, src)`: the contents of `dst` afterwards. -/
def copyBytes (dst src : Bytes) : Bytes := src.take dst.length ++ dst.drop src.length

/-- The loop `for i := len(upperBound) - 1; i >= 0; i--` of `PrefixToUpperBound`, entered
with `i + 1` as first argument: the slice returned (`none` for nil) and the slices at the
end.  The byte addition wraps modulo 256. -/
def PrefixToUpperBound.loop : Nat → Slices → Option Bytes × Slices
  | 0, m => (none, m)
  | i + 1, m =>
    let m := { m with upperBound := m.upperBound.set i ((m.upperBound.getD i 0 + 1) % 256) }
    if m.upperBound.getD i 0 ≠ 0 then (some (m.upperBound.take (i + 1)), m)
    else PrefixToUpperBound.loop i m

/-- The function `PrefixToUpperBound` of `pkg/pebbleutil/pebbleutil.go`, with the slices
at the end of the call. -/
def PrefixToUpperBound.run (pfx : Bytes) : Option Bytes × Slices :=
  let m : Slices := { pfx := pfx, upperBound := List.replicate pfx.length 0 }
  let m := { m with upperBound := copyBytes m.upperBound m.pfx }
  PrefixToUpperBound.loop m.upperBound.length m

/-- The result of `PrefixToUpperBound`; `none` is the nil slice (no upper bound). -/
def PrefixToUpperBound (pfx : Bytes) : Option Bytes := (PrefixToUpperBound.run pfx).1

/-! ## The client-certificate extractor -/

set_option maxRecDepth 100000

/-- C1: when the chain string of the metadata URL-unescapes to a text in which `pem.Decode`
finds a first block `p`, leaving `rest`, the extractor returns the PEM re-encoding of `p` as
the leaf and exactly `rest` as the intermediates. -/
theorem getClientCertificateInfo_leaf_and_rest (E : GoStd) (m : Struct) (chain : Bytes)
    (p : Block) (rest : Bytes)
    (hunescape : E.QueryUnescape (GetStringValue (m.field (ascii "chain"))) = .ok chain)
    (hdecode : E.pemDecode chain = (some p, rest)) :
    (getClientCertificateInfo E (some m)).Leaf = E.pemEncodeToMemory p ∧
      (getClientCertificateInfo E (some m)).Intermediates = rest := by
  have hne : GetStringValue (m.field (ascii "chain")) ≠ [] := by
    intro h
    rw [h, E.QueryUnescape_nil] at hunescape
    injection hunescape with h1
    rw [← h1, E.pemDecode_nil] at hdecode
    simp at hdecode
  simp [getClientCertificateInfo, hne, hunescape, hdecode]

/-- Witness of C1: the escaped chain of a leaf and an intermediate block, run through the
reference implementation of the library. -/
theorem getClientCertificateInfo_leaf_and_rest_witness :
    goStd.QueryUnescape (GetStringValue (certMetadata.field (ascii "chain")))
        = .ok (leafPEM ++ intermediatePEM) ∧
      goStd.pemDecode (leafPEM ++ intermediatePEM) = (some leafBlock, intermediatePEM) ∧
      goStd.pemEncodeToMemory leafBlock = leafPEM ∧
      (getClientCertificateInfo goStd (some certMetadata)).Leaf = goStd.pemEncodeToMemory leafBlock ∧
      (getClientCertificateInfo goStd (some certMetadata)).Intermediates = intermediatePEM :=
  ⟨rfl, by decide, by decide,
    getClientCertificateInfo_leaf_and_rest goStd certMetadata (leafPEM ++ intermediatePEM)
      leafBlock intermediatePEM rfl (by decide)⟩

/-- C2 as stated fails: with the presented flag set and a chain that is not valid
URL-escaping, the extractor keeps the flag, so the result is not the zero value. -/
theorem getClientCertificateInfo_bad_escape_keeps_flag :
    GetStringValue (badEscapeMetadata.field (ascii "chain")) ≠ [] ∧
      goStd.QueryUnescape (GetStringValue (badEscapeMetadata.field (ascii "chain")))
        = .error (GoError.other "invalid URL escape") ∧
      getClientCertificateInfo goStd (some badEscapeMetadata)
        = { Presented := true, Leaf := [], Intermediates := [] } ∧
      getClientCertificateInfo goStd (some badEscapeMetadata) ≠ ClientCertificateInfo.zero :=
  ⟨by decide, rfl, by decide, by decide⟩

/-- C2, amended: for a non-empty chain string that is not valid URL-escaping, or that
unescapes to a text without a PEM block, the extractor returns an info with empty leaf and
empty intermediates whose presented field is the presented flag of the metadata.  The result
is a plain value: the function has no error result. -/
theorem getClientCertificateInfo_malformed (E : GoStd) (m : Struct)
    (hne : GetStringValue (m.field (ascii "chain")) ≠ [])
    (hbad : (∃ e, E.QueryUnescape (GetStringValue (m.field (ascii "chain"))) = .error e) ∨
      (∃ chain rest, E.QueryUnescape (GetStringValue (m.field (ascii "chain"))) = .ok chain ∧
        E.pemDecode chain = (none, rest))) :
    getClientCertificateInfo E (some m) =
      { Presented := GetBoolValue (m.field (ascii "presented")), Leaf := [], Intermediates := [] } := by
  rcases hbad with ⟨e, he⟩ | ⟨chain, rest, hc, hd⟩
  · simp [getClientCertificateInfo, hne, he, ClientCertificateInfo.zero]
  · simp [getClientCertificateInfo, hne, hc, hd, ClientCertificateInfo.zero]

/-- Witness of the amended C2: a chain without a PEM block, presented flag set. -/
theorem getClientCertificateInfo_malformed_witness :
    getClientCertificateInfo goStd (some noPEMMetadata) =
      { Presented := true, Leaf := [], Intermediates := [] } :=
  getClientCertificateInfo_malformed goStd noPEMMetadata (by decide)
    (Or.inr ⟨ascii "not a certificate", ascii "not a certificate", rfl, by decide⟩)

/-- C3: when the metadata is absent, or present with an empty chain string, the extractor
returns an info with empty leaf and empty intermediates, whose presented field is the
presented flag of the metadata, false when the metadata is absent. -/
theorem getClientCertificateInfo_no_chain (E : GoStd) (md : Option Struct)
    (h : md = none ∨ ∃ m, md = some m ∧ GetStringValue (m.field (ascii "chain")) = []) :
    getClientCertificateInfo E md =
      { Presented := match md with
                     | none => false
                     | some m => GetBoolValue (m.field (ascii "presented")),
        Leaf := [], Intermediates := [] } := by
  rcases h with rfl | ⟨m, rfl, hm⟩
  · rfl
  · simp [getClientCertificateInfo, hm, ClientCertificateInfo.zero]

/-- Witness of C3: metadata with the presented flag set and no chain field. -/
theorem getClientCertificateInfo_no_chain_witness :
    getClientCertificateInfo goStd (some noChainMetadata) =
      { Presented := true, Leaf := [], Intermediates := [] } :=
  getClientCertificateInfo_no_chain goStd (some noChainMetadata) (Or.inr ⟨noChainMetadata, rfl, by decide⟩)

/-! ## The URL translator -/

/-- The index found by `indexByte` splits the string at the first occurrence of the byte. -/
theorem indexByte_append (c : Nat) (before after : Bytes) (h : c ∉ before) :
    indexByte c (before ++ c :: after) = some before.length := by
  induction before with
  | nil => simp [indexByte]
  | cons x xs ih =>
    have hx : x ≠ c := fun hxc => h (by simp [hxc])
    have hxs : c ∉ xs := fun hmem => h (List.mem_cons_of_mem _ hmem)
    simp [indexByte, hx, ih hxs]

/-- The search of `indexByte` fails exactly on strings without the byte. -/
theorem indexByte_eq_none (c : Nat) (s : Bytes) (h : c ∉ s) : indexByte c s = none := by
  induction s with
  | nil => rfl
  | cons x xs ih =>
    have hx : x ≠ c := fun hxc => h (by simp [hxc])
    have hxs : c ∉ xs := fun hmem => h (List.mem_cons_of_mem _ hmem)
    simp [indexByte, hx, ih hxs]

/-- C4: `getCheckRequestURL` splits the wire path at the first `?` (byte 63).  When the path
is `before ++ "?" ++ after` with no `?` in `before`, the raw path is `before` and the raw
query is the encoding of the parsed `after`; when the path has no `?`, the raw path is the
whole path and the raw query is empty. -/
theorem getCheckRequestURL_split (E : GoStd) (K : Pkg) (req : CheckRequest) :
    (∀ before after : Bytes, req.Path = before ++ 63 :: after → 63 ∉ before →
        (getCheckRequestURL E K req).RawPath = before ∧
          (getCheckRequestURL E K req).RawQuery = E.Encode (E.ParseQuery after).1) ∧
      (63 ∉ req.Path →
        (getCheckRequestURL E K req).RawPath = req.Path ∧ (getCheckRequestURL E K req).RawQuery = []) := by
  constructor
  · intro before after hpath hnot
    simp [getCheckRequestURL, hpath, indexByte_append 63 before after hnot]
  · intro hnot
    simp [getCheckRequestURL, indexByte_eq_none 63 req.Path hnot]

/-- Witness of C4: the path `/a?b=2&a=1?x` has raw path `/a` and the canonical query
`a=1%3Fx&b=2`. -/
theorem getCheckRequestURL_split_witness :
    (getCheckRequestURL goStd demoPkg { demoRequest with Path := ascii "/a?b=2&a=1?x" }).RawPath
        = ascii "/a" ∧
      (getCheckRequestURL goStd demoPkg { demoRequest with Path := ascii "/a?b=2&a=1?x" }).RawQuery
        = ascii "a=1%3Fx&b=2" :=
  (getCheckRequestURL_split goStd demoPkg { demoRequest with Path := ascii "/a?b=2&a=1?x" }).1
    (ascii "/a") (ascii "b=2&a=1?x") rfl (by decide)

/-! ## The session resolver and the orchestrator -/

/-- The translation of the wire request never fails. -/
theorem getEvaluatorRequestFromCheckRequest_err (E : GoStd) (K : Pkg) (a : Authorize)
    (in_ : CheckRequest) : (getEvaluatorRequestFromCheckRequest E K a in_).2 = none := rfl

/-- The translated request has an empty session id. -/
theorem getEvaluatorRequestFromCheckRequest_session (E : GoStd) (K : Pkg) (a : Authorize)
    (in_ : CheckRequest) : (getEvaluatorRequestFromCheckRequest E K a in_).1.Session.ID = [] := rfl

/-- The session resolver writes log lines only. -/
theorem loadSession_events (a : Authorize) (hreq : HTTPRequest) (req : Request) :
    ∀ ev ∈ (loadSession a hreq req).2, ev.isEvaluate = false ∧ ev.isAudit = false := by
  intro ev hev
  unfold loadSession at hev
  cases hc : a.CreateSession req.Policy hreq with
  | ok s => simp [hc, toPair] at hev
  | error e =>
    simp only [hc, toPair] at hev
    split at hev
    · simp at hev; subst hev; exact ⟨rfl, rfl⟩
    · split at hev
      · simp at hev
      · split at hev
        · simp at hev; subst hev; exact ⟨rfl, rfl⟩
        · split at hev
          · simp at hev; subst hev; exact ⟨rfl, rfl⟩
          · simp at hev

/-- When session loading yields an invalid-session error, `Check` returns what
`deniedResponse` builds for status 403 and its standard text. -/
theorem Check_of_invalid_session (E : GoStd) (K : Pkg) (a : Authorize) (in_ : CheckRequest)
    (h : errorsIs (loadSession a (getHTTPRequestFromCheckRequest E K in_)
      (getEvaluatorRequestFromCheckRequest E K a in_).1).1.2 GoError.ErrInvalidSession = true) :
    Check E K a in_ =
      (deniedResponse in_ StatusForbidden (StatusText StatusForbidden) none,
        (loadSession a (getHTTPRequestFromCheckRequest E K in_)
          (getEvaluatorRequestFromCheckRequest E K a in_).1).2) := by
  simp only [Check, getEvaluatorRequestFromCheckRequest_err, h, if_true]

/-- When session loading yields any other error, `Check` returns that error, wrapped. -/
theorem Check_of_session_error (E : GoStd) (K : Pkg) (a : Authorize) (in_ : CheckRequest)
    (e : GoError)
    (herr : (loadSession a (getHTTPRequestFromCheckRequest E K in_)
      (getEvaluatorRequestFromCheckRequest E K a in_).1).1.2 = some e)
    (h : e.Is GoError.ErrInvalidSession = false) :
    Check E K a in_ =
      ((none, some (GoError.wrap "error loading session" e)),
        (loadSession a (getHTTPRequestFromCheckRequest E K in_)
          (getEvaluatorRequestFromCheckRequest E K a in_).1).2) := by
  simp only [Check, getEvaluatorRequestFromCheckRequest_err, herr, errorsIs, h]
  simp

/-- C5 as stated fails: a token exchange that rejects the token with the invalid-session
error (not "no session found") makes `Check` return the fixed 403 denial with a nil error. -/
theorem Check_invalid_token_is_denied :
    (scenario invalidToken none noToken (.ok allowResult)).CreateSession
        (getEvaluatorRequestFromCheckRequest goStd demoPkg
          (scenario invalidToken none noToken (.ok allowResult)) demoRequest).1.Policy
        (getHTTPRequestFromCheckRequest goStd demoPkg demoRequest)
        = .error (GoError.wrap "invalid access token" GoError.ErrInvalidSession) ∧
      (GoError.wrap "invalid access token" GoError.ErrInvalidSession).Is GoError.ErrNoSessionFound
        = false ∧
      (Check goStd demoPkg (scenario invalidToken none noToken (.ok allowResult)) demoRequest).1
        = (some (CheckResponse.denied 403 "Forbidden" []), none) :=
  ⟨rfl, by decide, by decide⟩

/-- C5, amended: when the token exchange fails with an error `e` that is not "no session
found", `loadSession` returns `e` and the evaluation engine is never invoked; when `e` is
not an invalid-session error either, `Check` returns no response and the error `e` wrapped
as "error loading session". -/
theorem Check_token_exchange_error (E : GoStd) (K : Pkg) (a : Authorize) (in_ : CheckRequest)
    (e : GoError)
    (hcreate : a.CreateSession (getEvaluatorRequestFromCheckRequest E K a in_).1.Policy
      (getHTTPRequestFromCheckRequest E K in_) = .error e)
    (hno : e.Is GoError.ErrNoSessionFound = false) :
    (loadSession a (getHTTPRequestFromCheckRequest E K in_)
        (getEvaluatorRequestFromCheckRequest E K a in_).1).1 = (none, some e) ∧
      (∀ ev ∈ (Check E K a in_).2, ev.isEvaluate = false) ∧
      (e.Is GoError.ErrInvalidSession = false →
        (Check E K a in_).1 = (none, some (GoError.wrap "error loading session" e))) := by
  have hl : (loadSession a (getHTTPRequestFromCheckRequest E K in_)
      (getEvaluatorRequestFromCheckRequest E K a in_).1).1 = (none, some e) := by
    simp [loadSession, hcreate, toPair, errorsIs, hno]
  have herr := congrArg Prod.snd hl
  simp only at herr
  refine ⟨hl, ?_, ?_⟩
  · intro ev hev
    cases hinv : e.Is GoError.ErrInvalidSession with
    | true =>
      rw [Check_of_invalid_session E K a in_ (by simp [herr, errorsIs, hinv])] at hev
      exact (loadSession_events _ _ _ ev hev).1
    | false =>
      rw [Check_of_session_error E K a in_ e herr hinv] at hev
      exact (loadSession_events _ _ _ ev hev).1
  · intro hinv
    rw [Check_of_session_error E K a in_ e herr hinv]

/-- Witness of the amended C5: the token exchange fails with a plain error. -/
theorem Check_token_exchange_error_witness :
    (Check goStd demoPkg
        (scenario (.error (GoError.other "error verifying access token")) none noToken
          (.ok allowResult)) demoRequest).1
      = (none, some (GoError.wrap "error loading session"
          (GoError.other "error verifying access token"))) :=
  (Check_token_exchange_error goStd demoPkg
    (scenario (.error (GoError.other "error verifying access token")) none noToken
      (.ok allowResult)) demoRequest (GoError.other "error verifying access token") rfl
    (by decide)).2.2 (by decide)

/-- C6 as stated fails: the record-store lookup fails with an error of gRPC status
`Unavailable` that also wraps the invalid-session sentinel; `loadSession` returns it, and
`Check` returns the fixed 403 denial with a nil error. -/
theorem Check_unavailable_invalid_session_is_denied :
    errorsIs (some GoError.ErrNoSessionFound) GoError.ErrNoSessionFound = true ∧
      statusCode (some (GoError.join "load session" GoError.ErrInvalidSession
        (GoError.status Code.Unavailable "connection refused"))) = Code.Unavailable ∧
      (loadSession
          (scenario noToken (some stateS1)
            (.error (GoError.join "load session" GoError.ErrInvalidSession
              (GoError.status Code.Unavailable "connection refused"))) (.ok allowResult))
          (getHTTPRequestFromCheckRequest goStd demoPkg demoRequest)
          (getEvaluatorRequestFromCheckRequest goStd demoPkg
            (scenario noToken (some stateS1)
              (.error (GoError.join "load session" GoError.ErrInvalidSession
                (GoError.status Code.Unavailable "connection refused"))) (.ok allowResult))
            demoRequest).1).1
        = (none, some (GoError.join "load session" GoError.ErrInvalidSession
            (GoError.status Code.Unavailable "connection refused"))) ∧
      (Check goStd demoPkg
          (scenario noToken (some stateS1)
            (.error (GoError.join "load session" GoError.ErrInvalidSession
              (GoError.status Code.Unavailable "connection refused"))) (.ok allowResult))
          demoRequest).1
        = (some (CheckResponse.denied 403 "Forbidden" []), none) :=
  ⟨by decide, by decide, by decide, by decide⟩

/-- C6, amended: when the token exchange reports "no session found", the session store
returns a session state and the record-store lookup for its id and version fails with gRPC
status `Unavailable`, `loadSession` returns that error and the evaluation engine is never
invoked; when the error is not an invalid-session error as well, `Check` returns no response
and the error (wrapped). -/
theorem Check_record_store_unavailable (E : GoStd) (K : Pkg) (a : Authorize) (in_ : CheckRequest)
    (e0 e : GoError) (st : SessionState)
    (hcreate : a.CreateSession (getEvaluatorRequestFromCheckRequest E K a in_).1.Policy
      (getHTTPRequestFromCheckRequest E K in_) = .error e0)
    (hno : errorsIs (some e0) GoError.ErrNoSessionFound = true)
    (hstate : (a.LoadSessionStateAndCheckIDP (getHTTPRequestFromCheckRequest E K in_)).1 = some st)
    (hrecord : a.getDataBrokerSessionOrServiceAccount st.ID st.DatabrokerRecordVersion = .error e)
    (hcode : statusCode (some e) = Code.Unavailable) :
    (loadSession a (getHTTPRequestFromCheckRequest E K in_)
        (getEvaluatorRequestFromCheckRequest E K a in_).1).1 = (none, some e) ∧
      (∀ ev ∈ (Check E K a in_).2, ev.isEvaluate = false) ∧
      (errorsIs (some e) GoError.ErrInvalidSession = false →
        (Check E K a in_).1 = (none, some (GoError.wrap "error loading session" e))) := by
  have hl : (loadSession a (getHTTPRequestFromCheckRequest E K in_)
      (getEvaluatorRequestFromCheckRequest E K a in_).1).1 = (none, some e) := by
    simp [loadSession, hcreate, toPair, hno, hstate, hrecord, hcode]
  have herr := congrArg Prod.snd hl
  simp only at herr
  refine ⟨hl, ?_, ?_⟩
  · intro ev hev
    cases hinv : e.Is GoError.ErrInvalidSession with
    | true =>
      rw [Check_of_invalid_session E K a in_ (by simp [herr, errorsIs, hinv])] at hev
      exact (loadSession_events _ _ _ ev hev).1
    | false =>
      rw [Check_of_session_error E K a in_ e herr hinv] at hev
      exact (loadSession_events _ _ _ ev hev).1
  · intro hinv
    rw [Check_of_session_error E K a in_ e herr (by simpa [errorsIs] using hinv)]

/-- Witness of the amended C6: session id `s1` at version 3, record store unavailable. -/
theorem Check_record_store_unavailable_witness :
    (Check goStd demoPkg
        (scenario noToken (some stateS1)
          (.error (GoError.status Code.Unavailable "connection refused")) (.ok allowResult))
        demoRequest).1
      = (none, some (GoError.wrap "error loading session"
          (GoError.status Code.Unavailable "connection refused"))) :=
  (Check_record_store_unavailable goStd demoPkg
    (scenario noToken (some stateS1)
      (.error (GoError.status Code.Unavailable "connection refused")) (.ok allowResult))
    demoRequest GoError.ErrNoSessionFound (GoError.status Code.Unavailable "connection refused")
    stateS1 rfl (by decide) rfl rfl (by decide)).2.2 (by decide)

/-- When session loading yields no error, `Check` invokes the evaluation engine once, on
the translated request when the identity is absent, and ends either with the error of the
engine or, after at most one log line, with one audit record. -/
theorem Check_of_session_ok (E : GoStd) (K : Pkg) (a : Authorize) (in_ : CheckRequest)
    (herr : (loadSession a (getHTTPRequestFromCheckRequest E K in_)
      (getEvaluatorRequestFromCheckRequest E K a in_).1).1.2 = none) :
    ∃ req : Request,
      ((loadSession a (getHTTPRequestFromCheckRequest E K in_)
          (getEvaluatorRequestFromCheckRequest E K a in_).1).1.1 = none →
        req = (getEvaluatorRequestFromCheckRequest E K a in_).1) ∧
      ((∃ e, a.Evaluate req = .error e ∧
          Check E K a in_ = ((none, some e),
            (loadSession a (getHTTPRequestFromCheckRequest E K in_)
              (getEvaluatorRequestFromCheckRequest E K a in_).1).2 ++
              [Event.Evaluate req, Event.log "error" "error during OPA evaluation"])) ∨
        (∃ res u l, a.Evaluate req = .ok res ∧
          (∀ ev ∈ l, ev.isEvaluate = false ∧ ev.isAudit = false) ∧
          (Check E K a in_).2 =
            (loadSession a (getHTTPRequestFromCheckRequest E K in_)
              (getEvaluatorRequestFromCheckRequest E K a in_).1).2 ++ [Event.Evaluate req] ++ l ++
              [Event.logAuthorizeCheck res
                (loadSession a (getHTTPRequestFromCheckRequest E K in_)
                  (getEvaluatorRequestFromCheckRequest E K a in_).1).1.1 u])) := by
  simp only [Check, getEvaluatorRequestFromCheckRequest_err, herr, errorsIs, Bool.false_eq_true,
    if_false]
  split
  · rename_i e hev
    exact ⟨_, fun hs => by simp [hs], Or.inl ⟨e, hev, rfl⟩⟩
  · rename_i res hev
    refine ⟨_, fun hs => by simp [hs], Or.inr ⟨res, _, _, hev, ?_, rfl⟩⟩
    intro ev hev2
    split at hev2
    · simp at hev2
      subst hev2
      exact ⟨rfl, rfl⟩
    · simp at hev2

/-- C7: when the token exchange reports "no session found" and either the session store
returns no session state, or the record-store lookup fails with an error whose gRPC status
is not `Unavailable`, `loadSession` returns an absent identity with no error, and `Check`
invokes the evaluation engine, on the translated request, whose session id is empty. -/
theorem Check_absent_identity (E : GoStd) (K : Pkg) (a : Authorize) (in_ : CheckRequest)
    (e0 : GoError)
    (hcreate : a.CreateSession (getEvaluatorRequestFromCheckRequest E K a in_).1.Policy
      (getHTTPRequestFromCheckRequest E K in_) = .error e0)
    (hno : errorsIs (some e0) GoError.ErrNoSessionFound = true)
    (habsent : (a.LoadSessionStateAndCheckIDP (getHTTPRequestFromCheckRequest E K in_)).1 = none ∨
      ∃ st e, (a.LoadSessionStateAndCheckIDP (getHTTPRequestFromCheckRequest E K in_)).1 = some st ∧
        a.getDataBrokerSessionOrServiceAccount st.ID st.DatabrokerRecordVersion = .error e ∧
        statusCode (some e) ≠ Code.Unavailable) :
    (loadSession a (getHTTPRequestFromCheckRequest E K in_)
        (getEvaluatorRequestFromCheckRequest E K a in_).1).1 = (none, none) ∧
      Event.Evaluate (getEvaluatorRequestFromCheckRequest E K a in_).1 ∈ (Check E K a in_).2 ∧
      (getEvaluatorRequestFromCheckRequest E K a in_).1.Session.ID = [] ∧
      (∀ r, Event.Evaluate r ∈ (Check E K a in_).2 →
        r = (getEvaluatorRequestFromCheckRequest E K a in_).1) := by
  have hl : (loadSession a (getHTTPRequestFromCheckRequest E K in_)
      (getEvaluatorRequestFromCheckRequest E K a in_).1).1 = (none, none) := by
    rcases habsent with hnone | ⟨st, e, hst, hrec, hcode⟩
    · simp [loadSession, hcreate, toPair, hno, hnone]
    · simp [loadSession, hcreate, toPair, hno, hst, hrec, hcode]
  have hs := congrArg Prod.fst hl
  have herr := congrArg Prod.snd hl
  simp only at hs herr
  have hlog := loadSession_events a (getHTTPRequestFromCheckRequest E K in_)
    (getEvaluatorRequestFromCheckRequest E K a in_).1
  obtain ⟨req, hreq, hcases⟩ := Check_of_session_ok E K a in_ herr
  have hreq := hreq hs
  subst hreq
  refine ⟨hl, ?_, rfl, ?_⟩
  · rcases hcases with ⟨e, _, hC⟩ | ⟨res, u, l, _, _, hC⟩
    · rw [hC]; simp
    · rw [hC]; simp
  · intro r hr
    rcases hcases with ⟨e, _, hC⟩ | ⟨res, u, l, _, hl2, hC⟩
    · rw [hC] at hr
      simp at hr
      rcases hr with hr | hr
      · exact absurd (hlog _ hr).1 (by simp [Event.isEvaluate])
      · exact hr
    · rw [hC] at hr
      simp at hr
      rcases hr with hr | hr | hr
      · exact absurd (hlog _ hr).1 (by simp [Event.isEvaluate])
      · exact hr
      · exact absurd (hl2 _ hr).1 (by simp [Event.isEvaluate])

/-- Witness of C7: session id `s1` at version 3, record not found. -/
theorem Check_absent_identity_witness :
    Event.Evaluate (getEvaluatorRequestFromCheckRequest goStd demoPkg
        (scenario noToken (some stateS1) (.error (GoError.status Code.NotFound "record not found"))
          (.ok allowResult)) demoRequest).1
      ∈ (Check goStd demoPkg
        (scenario noToken (some stateS1) (.error (GoError.status Code.NotFound "record not found"))
          (.ok allowResult)) demoRequest).2 :=
  (Check_absent_identity goStd demoPkg
    (scenario noToken (some stateS1) (.error (GoError.status Code.NotFound "record not found"))
      (.ok allowResult)) demoRequest GoError.ErrNoSessionFound rfl (by decide)
    (Or.inr ⟨stateS1, GoError.status Code.NotFound "record not found", rfl, rfl, by decide⟩)).2.1

/-- C8: when session loading yields an error that is (or wraps) `sessions.ErrInvalidSession`,
`Check` returns what `deniedResponse` builds for status 403 and `http.StatusText(403)`, that
is the denial with HTTP status 403 and the text "Forbidden", with a nil error, and the
evaluation engine is never invoked. -/
theorem Check_invalid_session_forbidden (E : GoStd) (K : Pkg) (a : Authorize) (in_ : CheckRequest)
    (h : errorsIs (loadSession a (getHTTPRequestFromCheckRequest E K in_)
      (getEvaluatorRequestFromCheckRequest E K a in_).1).1.2 GoError.ErrInvalidSession = true) :
    (Check E K a in_).1 = deniedResponse in_ 403 (StatusText StatusForbidden) none ∧
      (Check E K a in_).1 = (some (CheckResponse.denied 403 "Forbidden" []), none) ∧
      (∀ ev ∈ (Check E K a in_).2, ev.isEvaluate = false) := by
  rw [Check_of_invalid_session E K a in_ h]
  refine ⟨rfl, rfl, ?_⟩
  · intro ev hev
    exact (loadSession_events _ _ _ ev hev).1

/-- Witness of C8: the token exchange rejects an identity token as an invalid session. -/
theorem Check_invalid_session_forbidden_witness :
    (Check goStd demoPkg
        (scenario (.error (GoError.wrap "invalid identity token" GoError.ErrInvalidSession))
          (some stateS1) noToken (.ok allowResult)) demoRequest).1
      = (some (CheckResponse.denied 403 "Forbidden" []), none) :=
  (Check_invalid_session_forbidden goStd demoPkg
    (scenario (.error (GoError.wrap "invalid identity token" GoError.ErrInvalidSession))
      (some stateS1) noToken (.ok allowResult)) demoRequest (by decide)).2.1

/-- C9 as stated fails: a check whose translation succeeded and whose evaluation engine
fails, and a check whose record store is unavailable, return an error and emit no audit
record. -/
theorem Check_error_paths_emit_no_audit :
    (getEvaluatorRequestFromCheckRequest goStd demoPkg
        (scenario noToken none noToken (.error (GoError.other "evaluation failed")))
        demoRequest).2 = none ∧
      (Check goStd demoPkg (scenario noToken none noToken (.error (GoError.other "evaluation failed")))
        demoRequest).1 = (none, some (GoError.other "evaluation failed")) ∧
      (Check goStd demoPkg (scenario noToken none noToken (.error (GoError.other "evaluation failed")))
        demoRequest).2.countP Event.isAudit = 0 ∧
      (Check goStd demoPkg
        (scenario noToken (some stateS1) (.error (GoError.status Code.Unavailable "connection refused"))
          (.ok allowResult)) demoRequest).2.countP Event.isAudit = 0 :=
  ⟨rfl, by decide, by decide, by decide⟩

/-- C9, amended: a check emits at most one audit record, and it emits exactly one if and
only if it invoked the evaluation engine and the engine returned a result (allow or deny,
also when building the response fails).  The paths that end before a result exists (the
fixed 403 denial, a session-resolution error, an evaluation-engine error) emit none. -/
theorem Check_audit_records (E : GoStd) (K : Pkg) (a : Authorize) (in_ : CheckRequest) :
    (Check E K a in_).2.countP Event.isAudit ≤ 1 ∧
      ((Check E K a in_).2.countP Event.isAudit = 1 ↔
        ∃ req res, Event.Evaluate req ∈ (Check E K a in_).2 ∧ a.Evaluate req = .ok res) := by
  have hlog := loadSession_events a (getHTTPRequestFromCheckRequest E K in_)
    (getEvaluatorRequestFromCheckRequest E K a in_).1
  have hzero : (loadSession a (getHTTPRequestFromCheckRequest E K in_)
      (getEvaluatorRequestFromCheckRequest E K a in_).1).2.countP Event.isAudit = 0 := by
    rw [List.countP_eq_zero]
    intro ev hev
    simp [(hlog ev hev).2]
  have hnoeval : ∀ r, Event.Evaluate r ∉ (loadSession a (getHTTPRequestFromCheckRequest E K in_)
      (getEvaluatorRequestFromCheckRequest E K a in_).1).2 := by
    intro r hr
    exact absurd (hlog _ hr).1 (by simp [Event.isEvaluate])
  cases hinv : errorsIs (loadSession a (getHTTPRequestFromCheckRequest E K in_)
      (getEvaluatorRequestFromCheckRequest E K a in_).1).1.2 GoError.ErrInvalidSession with
  | true =>
    rw [Check_of_invalid_session E K a in_ hinv]
    simp only [hzero]
    refine ⟨by omega, ⟨fun h => absurd h (by omega), ?_⟩⟩
    rintro ⟨r, _, hr, _⟩
    exact absurd hr (hnoeval r)
  | false =>
    cases herr : (loadSession a (getHTTPRequestFromCheckRequest E K in_)
        (getEvaluatorRequestFromCheckRequest E K a in_).1).1.2 with
    | some e =>
      have hinv2 : e.Is GoError.ErrInvalidSession = false := by
        simpa [herr, errorsIs] using hinv
      rw [Check_of_session_error E K a in_ e herr hinv2]
      simp only [hzero]
      refine ⟨by omega, ⟨fun h => absurd h (by omega), ?_⟩⟩
      rintro ⟨r, _, hr, _⟩
      exact absurd hr (hnoeval r)
    | none =>
      obtain ⟨req, _, hcases⟩ := Check_of_session_ok E K a in_ herr
      rcases hcases with ⟨e, hev, hC⟩ | ⟨res, u, l, hev, hl2, hC⟩
      · rw [hC]
        simp only [List.countP_append, hzero]
        refine ⟨by simp [List.countP_cons, Event.isAudit], ?_⟩
        constructor
        · intro h
          simp [List.countP_cons, Event.isAudit] at h
        · rintro ⟨r, res, hr, hres⟩
          simp at hr
          rcases hr with hr | hr
          · exact absurd hr (hnoeval r)
          · rw [hr, hev] at hres
            cases hres
      · rw [hC]
        have hl0 : l.countP Event.isAudit = 0 := by
          rw [List.countP_eq_zero]
          intro ev hmem
          simp [(hl2 ev hmem).2]
        simp only [List.countP_append, hzero, hl0]
        refine ⟨by simp [List.countP_cons, Event.isAudit], ?_⟩
        constructor
        · intro _
          exact ⟨req, res, by simp, hev⟩
        · intro _
          simp [List.countP_cons, Event.isAudit]

/-! ## The policy matcher -/

/-- The loop of the policy matcher returns `p` exactly when `p` is the first policy of the
list whose route identifier is the input. -/
theorem getMatchingPolicy.loop_eq_some (a : Authorize) (routeID : Nat) (l : List Policy)
    (p : Policy) :
    getMatchingPolicy.loop a routeID l = some p ↔
      ∃ before after, l = before ++ p :: after ∧ (a.RouteID p).1 = routeID ∧
        ∀ q ∈ before, (a.RouteID q).1 ≠ routeID := by
  induction l with
  | nil => simp [getMatchingPolicy.loop]
  | cons x xs ih =>
    by_cases hx : (a.RouteID x).1 = routeID
    · simp only [getMatchingPolicy.loop, hx, if_true, Option.some.injEq]
      constructor
      · rintro rfl
        exact ⟨[], xs, rfl, hx, by simp⟩
      · rintro ⟨before, after, hl, _, hbefore⟩
        cases before with
        | nil =>
          simp only [List.nil_append, List.cons.injEq] at hl
          exact hl.1
        | cons y ys =>
          simp only [List.cons_append, List.cons.injEq] at hl
          exact absurd (hl.1 ▸ hx) (hbefore y (by simp))
    · simp only [getMatchingPolicy.loop, hx, if_false, ih]
      constructor
      · rintro ⟨before, after, hl, hp, hbefore⟩
        refine ⟨x :: before, after, by simp [hl], hp, ?_⟩
        intro q hq
        rcases List.mem_cons.mp hq with rfl | hq
        · exact hx
        · exact hbefore q hq
      · rintro ⟨before, after, hl, hp, hbefore⟩
        cases before with
        | nil =>
          simp only [List.nil_append, List.cons.injEq] at hl
          exact absurd (hl.1 ▸ hp) hx
        | cons y ys =>
          simp only [List.cons_append, List.cons.injEq] at hl
          exact ⟨ys, after, hl.2, hp, fun q hq => hbefore q (List.mem_cons_of_mem _ hq)⟩

/-- The loop of the policy matcher returns no policy exactly when no policy of the list has
the input as its route identifier. -/
theorem getMatchingPolicy.loop_eq_none (a : Authorize) (routeID : Nat) (l : List Policy) :
    getMatchingPolicy.loop a routeID l = none ↔ ∀ q ∈ l, (a.RouteID q).1 ≠ routeID := by
  induction l with
  | nil => simp [getMatchingPolicy.loop]
  | cons x xs ih =>
    by_cases hx : (a.RouteID x).1 = routeID
    · simp [getMatchingPolicy.loop, hx]
    · simp [getMatchingPolicy.loop, hx, ih]

/-- C10: `getMatchingPolicy` returns a policy `p` exactly when `p` is the first policy in
iteration order whose computed route identifier (the first result of `RouteID`) equals the
input, every earlier policy having a different identifier; it returns nil exactly when no
configured policy has that identifier; and the translated request carries the policy matched
for the route identifier of the context extensions, with a nil error. -/
theorem getMatchingPolicy_first_match (E : GoStd) (K : Pkg) (a : Authorize) (routeID : Nat)
    (in_ : CheckRequest) :
    (∀ p, getMatchingPolicy a routeID = some p ↔
        ∃ before after, a.policies = before ++ p :: after ∧ (a.RouteID p).1 = routeID ∧
          ∀ q ∈ before, (a.RouteID q).1 ≠ routeID) ∧
      (getMatchingPolicy a routeID = none ↔ ∀ q ∈ a.policies, (a.RouteID q).1 ≠ routeID) ∧
      (getEvaluatorRequestFromCheckRequest E K a in_).1.Policy =
        getMatchingPolicy a (K.ExtAuthzContextExtensionsRouteID in_.ContextExtensions) ∧
      (getEvaluatorRequestFromCheckRequest E K a in_).2 = none :=
  ⟨fun p => getMatchingPolicy.loop_eq_some a routeID a.policies p,
    getMatchingPolicy.loop_eq_none a routeID a.policies, rfl, rfl⟩

/-! ## Certificate selection -/

/-- The loop of `GetCertificateForServerName` finds no index exactly when no certificate
of the list matches the server name. -/
theorem GetCertificateForServerName_loop_eq_none (X : CryptDeps) (serverName : Bytes)
    (l : List TLSCertificate) :
    ∀ i, GetCertificateForServerName.loop X serverName l i = none ↔
      ∀ c ∈ l, matchesServerName X (some c) serverName = false := by
  induction l with
  | nil => intro i; simp [GetCertificateForServerName.loop]
  | cons c rest ih =>
    intro i
    cases hc : matchesServerName X (some c) serverName with
    | true => simp [GetCertificateForServerName.loop, hc]
    | false => simp [GetCertificateForServerName.loop, hc, ih]

/-- The index found by the loop of `GetCertificateForServerName`, counted from the start
index, is that of the first certificate that matches the server name. -/
theorem GetCertificateForServerName_loop_eq_some (X : CryptDeps) (serverName : Bytes)
    (l : List TLSCertificate) :
    ∀ i j, GetCertificateForServerName.loop X serverName l i = some j →
      ∃ before c after, l = before ++ c :: after ∧ j = i + before.length ∧
        matchesServerName X (some c) serverName = true ∧
        ∀ d ∈ before, matchesServerName X (some d) serverName = false := by
  induction l with
  | nil => intro i j h; simp [GetCertificateForServerName.loop] at h
  | cons c rest ih =>
    intro i j h
    cases hc : matchesServerName X (some c) serverName with
    | true =>
      simp [GetCertificateForServerName.loop, hc] at h
      exact ⟨[], c, rest, rfl, by simp [h], hc, by simp⟩
    | false =>
      simp [GetCertificateForServerName.loop, hc] at h
      obtain ⟨before, c1, after, hl, hj, hm, hb⟩ := ih (i + 1) j h
      refine ⟨c :: before, c1, after, by simp [hl], by simp [hj]; omega, hm, ?_⟩
      intro d hd
      rcases List.mem_cons.mp hd with rfl | hd
      · exact hc
      · exact hb d hd

/-- When a certificate of the list matches the server name, `GetCertificateForServerName`
returns the address of the first one that does, with a nil error. -/
theorem GetCertificateForServerName_of_match (X : CryptDeps) (certificates : List TLSCertificate)
    (serverName : Bytes)
    (h : ∃ c ∈ certificates, matchesServerName X (some c) serverName = true) :
    ∃ before c after, certificates = before ++ c :: after ∧
      matchesServerName X (some c) serverName = true ∧
      (∀ d ∈ before, matchesServerName X (some d) serverName = false) ∧
      GetCertificateForServerName X certificates serverName
        = (some (CertPointer.element before.length), none) := by
  cases hl : GetCertificateForServerName.loop X serverName certificates 0 with
  | none =>
    obtain ⟨c, hc, hm⟩ := h
    have := (GetCertificateForServerName_loop_eq_none X serverName certificates 0).mp hl c hc
    rw [this] at hm
    cases hm
  | some j =>
    obtain ⟨before, c, after, hcert, hj, hm, hb⟩ :=
      GetCertificateForServerName_loop_eq_some X serverName certificates 0 j hl
    refine ⟨before, c, after, hcert, hm, hb, ?_⟩
    simp [GetCertificateForServerName, hl, hj]

/-- When no certificate of the list matches the server name, `GetCertificateForServerName`
returns what `GenerateSelfSignedCertificate` returns, whether the list is empty or not. -/
theorem GetCertificateForServerName_of_no_match (X : CryptDeps)
    (certificates : List TLSCertificate) (serverName : Bytes)
    (h : ∀ c ∈ certificates, matchesServerName X (some c) serverName = false) :
    GetCertificateForServerName X certificates serverName =
      ((X.GenerateSelfSignedCertificate serverName).1.map CertPointer.generated,
        (X.GenerateSelfSignedCertificate serverName).2) := by
  have hl := (GetCertificateForServerName_loop_eq_none X serverName certificates 0).mpr h
  simp [GetCertificateForServerName, hl]

/-- C11, on the code: for the one-element list holding a certificate for `a.example.com`
and the server name `b.example.com`, the list is not empty and nothing in it matches, yet
`GetCertificateForServerName` returns the generated self-signed certificate and not the
address of the first certificate of the list, which its documentation promises. -/
theorem GetCertificateForServerName_generates_despite_certificates :
    [certA] ≠ [] ∧
      matchesServerName demoCrypt (some certA) (ascii "b.example.com") = false ∧
      GetCertificateForServerName demoCrypt [certA] (ascii "b.example.com")
        = (some (CertPointer.generated { Certificate := [ascii "self-signed,b.example.com"] }),
            none) ∧
      GetCertificateForServerName demoCrypt [certA] (ascii "b.example.com")
        ≠ (some (CertPointer.element 0), none) :=
  ⟨by decide, by decide, by decide, by decide⟩

/-! ## The upper bound of a key range -/

/-- Reading the byte that follows the bytes `a`. -/
theorem getD_append_cons_length (a z : Bytes) (c : Nat) :
    (a ++ c :: z).getD a.length 0 = c := by
  induction a with
  | nil => rfl
  | cons x xs ih => simpa using ih

/-- Writing the byte that follows the bytes `a`. -/
theorem set_append_cons_length (a z : Bytes) (c v : Nat) :
    (a ++ c :: z).set a.length v = a ++ v :: z := by
  induction a with
  | nil => rfl
  | cons x xs ih => simp [ih]

/-- The slice up to and including the byte that follows the bytes `a`. -/
theorem take_append_cons_length (a z : Bytes) (v : Nat) :
    (a ++ v :: z).take (a.length + 1) = a ++ [v] := by
  induction a with
  | nil => rfl
  | cons x xs ih => simp [ih]

/-- What the loop of `PrefixToUpperBound` returns when it is entered on the bytes
`a ++ z` with `len(a)` as counter: nil when every byte of `a` wraps to 0, otherwise the
bytes before the last byte `c` of `a` that does not wrap, followed by `c + 1`.  The bytes
of the argument are left as they were. -/
theorem PrefixToUpperBound.loop_spec (n : Nat) :
    ∀ (a z pf : Bytes), a.length = n →
      (PrefixToUpperBound.loop n { pfx := pf, upperBound := a ++ z }).2.pfx = pf ∧
      (((PrefixToUpperBound.loop n { pfx := pf, upperBound := a ++ z }).1 = none ∧
          ∀ x ∈ a, (x + 1) % 256 = 0) ∨
        ∃ q c t, a = q ++ c :: t ∧ (∀ x ∈ t, (x + 1) % 256 = 0) ∧ (c + 1) % 256 ≠ 0 ∧
          (PrefixToUpperBound.loop n { pfx := pf, upperBound := a ++ z }).1
            = some (q ++ [(c + 1) % 256])) := by
  induction n with
  | zero =>
    intro a z pf ha
    have : a = [] := List.length_eq_zero.mp ha
    subst this
    exact ⟨rfl, Or.inl ⟨rfl, by simp⟩⟩
  | succ n ih =>
    intro a z pf ha
    rcases List.eq_nil_or_concat a with rfl | ⟨a1, c, hconcat⟩
    · simp at ha
    · rw [List.concat_eq_append] at hconcat
      subst hconcat
      have hlen : a1.length = n := by simpa using ha
      rw [List.append_assoc, List.singleton_append]
      subst hlen
      by_cases hc : (c + 1) % 256 = 0
      · have hstep : PrefixToUpperBound.loop (a1.length + 1) { pfx := pf, upperBound := a1 ++ c :: z }
            = PrefixToUpperBound.loop a1.length { pfx := pf, upperBound := a1 ++ 0 :: z } := by
          simp only [PrefixToUpperBound.loop, getD_append_cons_length,
            set_append_cons_length]
          simp [hc]
        rw [hstep]
        obtain ⟨hp, hres⟩ := ih a1 (0 :: z) pf rfl
        refine ⟨hp, ?_⟩
        rcases hres with ⟨hnone, hall⟩ | ⟨q, c1, t, ha1, ht, hc1, hsome⟩
        · left
          refine ⟨hnone, ?_⟩
          intro x hx
          rcases List.mem_append.mp hx with hx | hx
          · exact hall x hx
          · simp at hx; subst hx; exact hc
        · right
          refine ⟨q, c1, t ++ [c], by simp [ha1], ?_, hc1, hsome⟩
          intro x hx
          rcases List.mem_append.mp hx with hx | hx
          · exact ht x hx
          · simp at hx; subst hx; exact hc
      · have hstep : PrefixToUpperBound.loop (a1.length + 1) { pfx := pf, upperBound := a1 ++ c :: z }
            = (some (a1 ++ [(c + 1) % 256]),
                { pfx := pf, upperBound := a1 ++ ((c + 1) % 256) :: z }) := by
          simp only [PrefixToUpperBound.loop, getD_append_cons_length,
            set_append_cons_length, take_append_cons_length]
          simp [hc]
        rw [hstep]
        exact ⟨rfl, Or.inr ⟨a1, c, [], by simp, by simp, hc, rfl⟩⟩

/-- What `PrefixToUpperBound` returns: nil when every byte wraps to 0, otherwise the bytes
before the last byte `c` that does not wrap, followed by `c + 1`; the argument keeps its
bytes. -/
theorem PrefixToUpperBound.run_spec (p : Bytes) :
    (PrefixToUpperBound.run p).2.pfx = p ∧
      ((PrefixToUpperBound p = none ∧ ∀ x ∈ p, (x + 1) % 256 = 0) ∨
        ∃ q c t, p = q ++ c :: t ∧ (∀ x ∈ t, (x + 1) % 256 = 0) ∧ (c + 1) % 256 ≠ 0 ∧
          PrefixToUpperBound p = some (q ++ [(c + 1) % 256])) := by
  have h := PrefixToUpperBound.loop_spec p.length p [] p rfl
  have hcopy : copyBytes (List.replicate p.length 0) p = p := by simp [copyBytes]
  simpa [PrefixToUpperBound, PrefixToUpperBound.run, hcopy] using h

/-- A common beginning does not change the order of two byte strings. -/
theorem bytesLt_append_left (q x y : Bytes) :
    GoRef.bytesLt (q ++ x) (q ++ y) = GoRef.bytesLt x y := by
  induction q with
  | nil => rfl
  | cons a q ih => simp [GoRef.bytesLt, ih]

/-- No byte string is below the empty one. -/
theorem bytesLt_nil_right (k : Bytes) : GoRef.bytesLt k [] = false := by
  cases k <;> rfl

/-- A byte string between `q ++ x` and `q ++ y` begins with `q`. -/
theorem between_append_left (q : Bytes) :
    ∀ (k x y : Bytes), GoRef.bytesLt k (q ++ x) = false → GoRef.bytesLt k (q ++ y) = true →
      ∃ k1, k = q ++ k1 ∧ GoRef.bytesLt k1 x = false ∧ GoRef.bytesLt k1 y = true := by
  induction q with
  | nil => intro k x y h1 h2; exact ⟨k, rfl, h1, h2⟩
  | cons a q ih =>
    intro k x y h1 h2
    cases k with
    | nil => simp [GoRef.bytesLt] at h1
    | cons b k =>
      simp only [List.cons_append, GoRef.bytesLt, Bool.or_eq_false_iff, Bool.and_eq_false_imp,
        decide_eq_false_iff_not, decide_eq_true_eq, Bool.or_eq_true, Bool.and_eq_true] at h1 h2
      have hba : b = a := by
        rcases h2 with h2 | h2
        · exact absurd h2 h1.1
        · exact h2.1
      subst hba
      have h2r : GoRef.bytesLt k (q ++ y) = true := by
        rcases h2 with h2 | h2
        · exact absurd h2 (lt_irrefl _)
        · exact h2.2
      obtain ⟨k1, hk, hx, hy⟩ := ih k x y (h1.2 rfl) h2r
      exact ⟨k1, by simp [hk], hx, hy⟩

/-- A byte string that is not below a string of bytes 255 begins with it. -/
theorem startsWith_of_not_lt_all_255 (t : Bytes) :
    ∀ k : Bytes, (∀ x ∈ t, x = 255) → (∀ x ∈ k, x < 256) → GoRef.bytesLt k t = false →
      ∃ s, k = t ++ s := by
  induction t with
  | nil => intro k _ _ _; exact ⟨k, rfl⟩
  | cons a t ih =>
    intro k ht hk hlt
    have ha : a = 255 := ht a (by simp)
    subst ha
    cases k with
    | nil => simp [GoRef.bytesLt] at hlt
    | cons b k =>
      simp only [GoRef.bytesLt, Bool.or_eq_false_iff, Bool.and_eq_false_imp,
        decide_eq_false_iff_not, decide_eq_true_eq] at hlt
      have hb : b < 256 := hk b (by simp)
      have hb2 : b = 255 := by omega
      subst hb2
      obtain ⟨s, hs⟩ := ih k (fun x hx => ht x (List.mem_cons_of_mem _ hx))
        (fun x hx => hk x (List.mem_cons_of_mem _ hx)) (hlt.2 rfl)
      exact ⟨s, by simp [hs]⟩

/-- C12: for a byte string `p` (bytes below 256), when `PrefixToUpperBound p` is not nil it
is a byte string (bytes below 256) strictly above every byte string that begins with `p`,
in lexicographic byte order; and the result is nil exactly when every byte of `p` is `0xFF`,
the empty string included. -/
theorem PrefixToUpperBound_upper_bound (p : Bytes) (hp : ∀ x ∈ p, x < 256) :
    (∀ b, PrefixToUpperBound p = some b →
        (∀ x ∈ b, x < 256) ∧ ∀ s, GoRef.bytesLt (p ++ s) b = true) ∧
      (PrefixToUpperBound p = none ↔ ∀ x ∈ p, x = 255) := by
  obtain ⟨_, hspec⟩ := PrefixToUpperBound.run_spec p
  constructor
  · intro b hb
    rcases hspec with ⟨hnone, _⟩ | ⟨q, c, t, hpq, _, hc, hsome⟩
    · rw [hnone] at hb
      cases hb
    · rw [hsome] at hb
      injection hb with hb
      have hc256 : c < 256 := hp c (by simp [hpq])
      have hlt : c < (c + 1) % 256 := by omega
      subst hb
      constructor
      · intro x hx
        rcases List.mem_append.mp hx with hx | hx
        · exact hp x (by simp [hpq, hx])
        · simp at hx
          subst hx
          exact Nat.mod_lt _ (by decide)
      · intro s
        rw [hpq, List.append_assoc, bytesLt_append_left]
        simp [GoRef.bytesLt, hlt]
  · constructor
    · intro hnone x hx
      rcases hspec with ⟨_, hall⟩ | ⟨q, c, t, _, _, _, hsome⟩
      · have h1 := hall x hx
        have h2 := hp x hx
        omega
      · rw [hsome] at hnone
        cases hnone
    · intro hall
      rcases hspec with ⟨hnone, _⟩ | ⟨q, c, t, hpq, _, hc, _⟩
      · exact hnone
      · have hc255 : c = 255 := hall c (by simp [hpq])
        subst hc255
        exact absurd rfl hc

/-- Witness of C12: the string `FF 01 FF` has the upper bound `FF 02`, a byte string above
`FF 01 FF 07`; the string `FF FF` has none. -/
theorem PrefixToUpperBound_upper_bound_witness :
    PrefixToUpperBound [255, 1, 255] = some [255, 2] ∧
      (∀ x ∈ [255, 2], x < 256) ∧
      GoRef.bytesLt ([255, 1, 255] ++ [7]) [255, 2] = true ∧
      PrefixToUpperBound [255, 255] = none :=
  ⟨by decide,
    ((PrefixToUpperBound_upper_bound [255, 1, 255] (by decide)).1 [255, 2] (by decide)).1,
    ((PrefixToUpperBound_upper_bound [255, 1, 255] (by decide)).1 [255, 2] (by decide)).2 [7],
    (PrefixToUpperBound_upper_bound [255, 255] (by decide)).2.2 (by decide)⟩

/-- C13: for a byte string `p` (bytes below 256) with a non-nil `PrefixToUpperBound p = b`,
a byte string `k` (bytes below 256) satisfies `p <= k < b` in lexicographic byte order
exactly when it begins with `p`; and the bytes of the argument are the same after the
call. -/
theorem PrefixToUpperBound_tight (p : Bytes) (hp : ∀ x ∈ p, x < 256) :
    (∀ b, PrefixToUpperBound p = some b → ∀ k : Bytes, (∀ x ∈ k, x < 256) →
        ((GoRef.bytesLt k p = false ∧ GoRef.bytesLt k b = true) ↔ ∃ s, k = p ++ s)) ∧
      (PrefixToUpperBound.run p).2.pfx = p := by
  obtain ⟨hkeep, hspec⟩ := PrefixToUpperBound.run_spec p
  refine ⟨?_, hkeep⟩
  intro b hb k hk
  rcases hspec with ⟨hnone, _⟩ | ⟨q, c, t, hpq, ht, hc, hsome⟩
  · rw [hnone] at hb
    cases hb
  · rw [hsome] at hb
    injection hb with hb
    have hc256 : c < 256 := hp c (by simp [hpq])
    have hlt : c < (c + 1) % 256 := by omega
    have ht255 : ∀ x ∈ t, x = 255 := by
      intro x hx
      have h1 := ht x hx
      have h2 := hp x (by simp [hpq, hx])
      omega
    subst hb
    constructor
    · rintro ⟨hge, hlt2⟩
      rw [hpq] at hge
      obtain ⟨k1, hk1, hx, hy⟩ := between_append_left q k (c :: t) [(c + 1) % 256] hge hlt2
      cases k1 with
      | nil => simp [GoRef.bytesLt] at hx
      | cons d k2 =>
        simp only [GoRef.bytesLt, Bool.or_eq_false_iff, Bool.and_eq_false_imp,
          decide_eq_false_iff_not, decide_eq_true_eq, Bool.or_eq_true, Bool.and_eq_true,
          bytesLt_nil_right, Bool.false_eq_true, and_false, or_false] at hx hy
        have hd : d = c := by omega
        subst hd
        have hk2 : ∀ x ∈ k2, x < 256 := by
          intro x hx2
          exact hk x (by simp [hk1, hx2])
        obtain ⟨s, hs⟩ := startsWith_of_not_lt_all_255 t k2 ht255 hk2 (hx.2 rfl)
        exact ⟨s, by simp [hk1, hpq, hs]⟩
    · rintro ⟨s, rfl⟩
      constructor
      · have h := bytesLt_append_left p s []
        rw [List.append_nil] at h
        rw [h, bytesLt_nil_right]
      · rw [hpq, List.append_assoc, bytesLt_append_left]
        simp [GoRef.bytesLt, hlt]

/-- Witness of C13: between `01 FF` and its upper bound `02`, the string `01 FF 00` begins
with `01 FF`. -/
theorem PrefixToUpperBound_tight_witness :
    PrefixToUpperBound [1, 255] = some [2] ∧
      (∃ s, [1, 255, 0] = [1, 255] ++ s) ∧
      (PrefixToUpperBound.run [1, 255]).2.pfx = [1, 255] :=
  ⟨by decide,
    ((PrefixToUpperBound_tight [1, 255] (by decide)).1 [2] (by decide) [1, 255, 0]
      (by decide)).1 ⟨by decide, by decide⟩,
    (PrefixToUpperBound_tight [1, 255] (by decide)).2⟩

end Pomerium
